import Mathlib

/-!
# Empirical Roofline Tool 1.1.0, `Kernels/kernel1.h`

A shallow embedding of the three routines of `kernel1.h`:

* the buffer fill (lines 14-29),
* the sequential `kernel` (lines 115-175),
* the CUDA `block_stride` worker and its launcher `gpuKernel` (lines 32-113).

Conventions of the embedding.

* Element values are exact rationals: `0.5` is `1/2`, `0.8` is `4/5` and
  `1 - 1e-8` is `1 - 1/100000000`.  Rounding is not modelled.
* `uint64_t` and `unsigned int` values are natural numbers; every operation
  that can wrap is followed by an explicit `% U64` or `% U32`.
* A buffer is a list; `A[i]` outside the list, a division by zero and a loop
  that exhausts its iteration budget are reported as a `Fault`.
* A `for (i = 0; i < n; ++i)` loop runs its body exactly `n` times
  (`countLoop`); the strided loop of `block_stride`, whose counter can wrap,
  is stepped with an explicit iteration budget (`strideLoop`).
-/

namespace ERT

/-! ## Machine model -/

/-- Ways in which a run of the embedded code can fail to produce a result. -/
inductive Fault where
  | outOfBounds
  | divByZero
  | outOfFuel
  deriving DecidableEq, Repr

/-- Modulus of `unsigned int` arithmetic (CUDA `gridDim.x`, `blockDim.x`,
`blockIdx.x`, `threadIdx.x`). -/
def U32 : Nat := 2 ^ 32

/-- Modulus of `uint64_t` arithmetic. -/
def U64 : Nat := 2 ^ 64

/-- Read of `A[i]`. -/
def load (A : List ℚ) (i : Nat) : Except Fault ℚ :=
  match A[i]? with
  | some x => .ok x
  | none => .error .outOfBounds

/-- Write `A[i] = v`. -/
def store (A : List ℚ) (i : Nat) (v : ℚ) : Except Fault (List ℚ) :=
  if i < A.length then .ok (A.set i v) else .error .outOfBounds

/-- Loop `for (i = i0; i < i0 + n; ++i) body`, for a counter that cannot wrap:
the body runs at `i0, i0 + 1, ..., i0 + n - 1`. -/
def countLoop {σ : Type} (body : Nat → σ → Except Fault σ) :
    Nat → Nat → σ → Except Fault σ
  | 0, _, s => .ok s
  | n + 1, i, s => body i s >>= countLoop body n (i + 1)

/-- Loop `for (i = i0; i < end_idx; i += stride_idx) body` on a `uint64_t`
counter, run for at most `fuel` iterations. -/
def strideLoop {σ : Type} (body : Nat → σ → Except Fault σ) (end_idx stride_idx : Nat) :
    Nat → Nat → σ → Except Fault σ
  | 0, i, s => if i < end_idx then .error .outOfFuel else .ok s
  | fuel + 1, i, s =>
    if i < end_idx then
      body i s >>= strideLoop body end_idx stride_idx fuel ((i + stride_idx) % U64)
    else .ok s

/-! ## `KERNEL1`, `KERNEL2` and the repetition blocks (lines 11-12, 56-88, 137-169) -/

/-- Value assigned to `a` by `#define KERNEL1(a,b,c) ((a) = (b) + (c))`. -/
def KERNEL1 (_a b c : ℚ) : ℚ := b + c

/-- Value assigned to `a` by `#define KERNEL2(a,b,c) ((a) = (a)*(b) + (c))`. -/
def KERNEL2 (a b c : ℚ) : ℚ := a * b + c

/-- The two statements that occur in a loop body: `KERNEL1(beta,A[i],alpha);`
and `KERNEL2(beta,A[i],alpha);`. -/
inductive Stmt where
  | kernel1
  | kernel2
  deriving DecidableEq, Repr

/-- Modelled from the spec: `rep.h`, which defines `REP2` ... `REP512`, is not
part of the source tree; `REPn(x)` is taken to expand to `n` literal copies of
the statement `x`. -/
def REP (n : Nat) (x : Stmt) : List Stmt := List.replicate n x

/-- The eleven `#if (ERT_FLOP & m) == m` blocks, in source order: the mask `m`
and the statements the block contributes. -/
def flopBlocks : List (Nat × List Stmt) :=
  [ (1, [Stmt.kernel1]),
    (2, [Stmt.kernel2]),
    (4, REP 2 Stmt.kernel2),
    (8, REP 4 Stmt.kernel2),
    (16, REP 8 Stmt.kernel2),
    (32, REP 16 Stmt.kernel2),
    (64, REP 32 Stmt.kernel2),
    (128, REP 64 Stmt.kernel2),
    (256, REP 128 Stmt.kernel2),
    (512, REP 256 Stmt.kernel2),
    (1024, REP 512 Stmt.kernel2) ]

/-- Blocks that survive preprocessing for a given `ERT_FLOP`. -/
def activeBlocks (ERT_FLOP : Nat) : List (Nat × List Stmt) :=
  flopBlocks.filter (fun blk => ERT_FLOP &&& blk.1 == blk.1)

/-- Statements between `T beta = 0.8;` and `A[i] = beta;` after preprocessing. -/
def bodyStmts (ERT_FLOP : Nat) : List Stmt :=
  (activeBlocks ERT_FLOP).flatMap Prod.snd

/-- Execute one statement: read `A[i]`, return the new `beta`. -/
def Stmt.exec (A : List ℚ) (i : Nat) (alpha : ℚ) (s : Stmt) (beta : ℚ) : Except Fault ℚ := do
  let Ai ← load A i
  match s with
  | Stmt.kernel1 => pure (KERNEL1 beta Ai alpha)
  | Stmt.kernel2 => pure (KERNEL2 beta Ai alpha)

/-- Body of the element loop: `T beta = 0.8; <blocks> A[i] = beta;`. -/
def loopBody (ERT_FLOP : Nat) (alpha : ℚ) (i : Nat) (A : List ℚ) : Except Fault (List ℚ) := do
  let beta ← (bodyStmts ERT_FLOP).foldlM (fun beta s => s.exec A i alpha beta) (4 / 5)
  store A i beta

/-- Update `alpha = alpha * (1 - 1e-8)`. -/
def decay (alpha : ℚ) : ℚ := alpha * (1 - 1 / 100000000)

/-! ## Buffer fill (lines 14-29) -/

/-- Source function `initialize(nsize, A, value)`; the alignment hints have no
effect on values. -/
def initialize_buffer (nsize : Nat) (A : List ℚ) (value : ℚ) : Except Fault (List ℚ) :=
  countLoop (fun i A => store A i value) nsize 0 A

/-! ## Sequential kernel (lines 115-175) -/

/-- The two integers written through `bytes_per_elem` and `mem_accesses_per_elem`. -/
structure Report where
  bytes_per_elem : Int
  mem_accesses_per_elem : Int
  deriving DecidableEq, Repr

/-- One iteration of the trial loop of `kernel`: sweep `i = 0 .. nsize - 1`,
then decay `alpha`.  The state is the buffer and `alpha`. -/
def kernelTrial (ERT_FLOP nsize : Nat) (s : List ℚ × ℚ) : Except Fault (List ℚ × ℚ) := do
  let A ← countLoop (loopBody ERT_FLOP s.2) nsize 0 s.1
  pure (A, decay s.2)

/-- Buffer and `alpha` after the trial loop of `kernel` (lines 131-174). -/
def kernelState (ERT_FLOP nsize ntrials : Nat) (A : List ℚ) : Except Fault (List ℚ × ℚ) :=
  countLoop (fun _ s => kernelTrial ERT_FLOP nsize s) ntrials 0 (A, 1 / 2)

/-- Source function `kernel<T>(nsize, ntrials, A, bytes_per_elem, mem_accesses_per_elem)`
for a build with the given `ERT_FLOP`; `sizeofT` is `sizeof(T)`.  The report is
written before the loops start. -/
def kernel (sizeofT ERT_FLOP nsize ntrials : Nat) (A : List ℚ) :
    Report × Except Fault (List ℚ) :=
  (⟨sizeofT, 2⟩, (kernelState ERT_FLOP nsize ntrials A).map Prod.fst)

/-! ## Parallel kernel (lines 32-113) -/

/-- Locals of `block_stride` computed on lines 35-49. -/
structure Partition where
  total_thr : Nat
  elem_per_thr : Nat
  blockOffset : Nat
  start_idx : Nat
  end_idx : Nat
  stride_idx : Nat
  deriving DecidableEq, Repr

/-- Lines 35-41 for worker `(blockIdx, threadIdx)` of a `gridDim` x `blockDim`
launch.  The products of line 35 and line 37 are `unsigned int` products; the
rest is `uint64_t` arithmetic.  Line 36 divides by `total_thr`. -/
def partitionRaw (gridDim blockDim blockIdx threadIdx nsize : Nat) : Except Fault Partition :=
  let total_thr := (gridDim * blockDim) % U32
  if total_thr = 0 then .error .divByZero
  else
    let elem_per_thr := ((nsize + (total_thr + U64 - 1) % U64) % U64) / total_thr
    let blockOffset := (blockIdx * blockDim) % U32
    let start_idx := (blockOffset + threadIdx) % U64
    let end_idx := (start_idx + (elem_per_thr * total_thr) % U64) % U64
    .ok ⟨total_thr, elem_per_thr, blockOffset, start_idx, end_idx, total_thr⟩

/-- Lines 43-49: the two clamps. -/
def clamp (nsize : Nat) (p : Partition) : Partition :=
  let p := if p.start_idx > nsize then { p with start_idx := nsize } else p
  if p.end_idx > nsize then { p with end_idx := nsize } else p

/-- Lines 35-49. -/
def partition (gridDim blockDim blockIdx threadIdx nsize : Nat) : Except Fault Partition :=
  (partitionRaw gridDim blockDim blockIdx threadIdx nsize).map (clamp nsize)

/-- The inner loop of line 54 with a body that only records `i`: the indices
at which the body of `block_stride` runs in one sweep, in order. -/
def sweepIndices (fuel : Nat) (p : Partition) : Except Fault (List Nat) :=
  strideLoop (fun i visited => .ok (visited ++ [i])) p.end_idx p.stride_idx fuel p.start_idx []

/-- Indices visited in one sweep by worker `(blockIdx, threadIdx)`. -/
def workerIndices (fuel gridDim blockDim blockIdx threadIdx nsize : Nat) :
    Except Fault (List Nat) :=
  partition gridDim blockDim blockIdx threadIdx nsize >>= sweepIndices fuel

/-- One iteration of the trial loop of `block_stride`. -/
def strideTrial (ERT_FLOP fuel : Nat) (p : Partition) (s : List ℚ × ℚ) :
    Except Fault (List ℚ × ℚ) := do
  let A ← strideLoop (loopBody ERT_FLOP s.2) p.end_idx p.stride_idx fuel p.start_idx s.1
  pure (A, decay s.2)

/-- Buffer and the worker's private `alpha` after `block_stride` (lines 35-93). -/
def blockStrideState (ERT_FLOP fuel gridDim blockDim blockIdx threadIdx ntrials nsize : Nat)
    (A : List ℚ) : Except Fault (List ℚ × ℚ) := do
  let p ← partition gridDim blockDim blockIdx threadIdx nsize
  countLoop (fun _ s => strideTrial ERT_FLOP fuel p s) ntrials 0 (A, 1 / 2)

/-- Source function `block_stride<T>(ntrials, nsize, A)` as run by one worker;
`fuel` bounds the iterations of each inner sweep. -/
def block_stride (ERT_FLOP fuel gridDim blockDim blockIdx threadIdx ntrials nsize : Nat)
    (A : List ℚ) : Except Fault (List ℚ) :=
  (blockStrideState ERT_FLOP fuel gridDim blockDim blockIdx threadIdx ntrials nsize A).map Prod.fst

/-- All workers `(blockIdx, threadIdx)` of a `gridDim` x `blockDim` launch. -/
def grid (gridDim blockDim : Nat) : List (Nat × Nat) :=
  (List.range gridDim).flatMap (fun b => (List.range blockDim).map (fun t => (b, t)))

/-- Workers run to completion one after the other, in the order of `sched`. -/
def runWorkers (ERT_FLOP fuel gridDim blockDim ntrials nsize : Nat) (sched : List (Nat × Nat))
    (A : List ℚ) : Except Fault (List ℚ) :=
  sched.foldlM (fun A w => block_stride ERT_FLOP fuel gridDim blockDim w.1 w.2 ntrials nsize A) A

/-- Source function `gpuKernel<T>(nsize, ntrials, A, bytes_per_elem, mem_accesses_per_elem)`:
writes the report, then launches `block_stride<<<gpu_blocks, gpu_threads>>>`.
The launched workers are run in the order `sched`. -/
def gpuKernel (sizeofT ERT_FLOP fuel gpu_blocks gpu_threads : Nat) (sched : List (Nat × Nat))
    (nsize ntrials : Nat) (A : List ℚ) : Report × Except Fault (List ℚ) :=
  (⟨sizeofT, 2⟩, runWorkers ERT_FLOP fuel gpu_blocks gpu_threads ntrials nsize sched A)

/-! ## Auxiliary definitions used in statements and proofs -/

/-- Value of `beta` after one statement, given the element value `Ai`. -/
def Stmt.eval (Ai alpha : ℚ) (s : Stmt) (beta : ℚ) : ℚ :=
  match s with
  | Stmt.kernel1 => KERNEL1 beta Ai alpha
  | Stmt.kernel2 => KERNEL2 beta Ai alpha

/-- Value stored to `A[i]` by one run of the loop body when `A[i]` holds `x`. -/
def updElem (ERT_FLOP : Nat) (alpha x : ℚ) : ℚ :=
  (bodyStmts ERT_FLOP).foldl (fun beta s => s.eval x alpha beta) (4 / 5)

/-- Value of an element after `n` trials that start with coefficient `alpha`. -/
def elemTrials (ERT_FLOP : Nat) : Nat → ℚ → ℚ → ℚ
  | 0, _, x => x
  | n + 1, alpha, x => elemTrials ERT_FLOP n (decay alpha) (updElem ERT_FLOP alpha x)

/-- Buffer `A` with `f` applied to the elements whose index satisfies `S`. -/
def applyOn (S : Nat → Prop) [DecidablePred S] (f : ℚ → ℚ) (A : List ℚ) : List ℚ :=
  A.mapIdx (fun i x => if S i then f x else x)

/-- Index `j` lies on the stride `i0, i0 + st, i0 + 2 st, ...` below `e`. -/
def onStride (i0 st e j : Nat) : Prop := i0 ≤ j ∧ (j - i0) % st = 0 ∧ j < e

instance (i0 st e : Nat) : DecidablePred (onStride i0 st e) :=
  fun j => inferInstanceAs (Decidable (i0 ≤ j ∧ (j - i0) % st = 0 ∧ j < e))

/-- In-place update `A[i] = g (A[i])`. -/
def pointUpdate (g : ℚ → ℚ) (i : Nat) (A : List ℚ) : Except Fault (List ℚ) :=
  if h : i < A.length then .ok (A.set i (g (A.get ⟨i, h⟩))) else .error .outOfBounds

/-- Number of iterations of `for (i = i0; i < e; i += st)` when nothing wraps. -/
def sweepCount (e st i0 : Nat) : Nat := (e - i0 + st - 1) / st

/-- The start index after the clamp of lines 43-45. -/
def clampStart (s N : Nat) : Nat := if s > N then N else s

/-- The launch `gridDim = G`, `blockDim = T` over `N` elements computes every
index without wrapping: the 32-bit product `G * T` and the 64-bit sums of
lines 36 and 40 are exact. -/
def NoWrap (N G T : Nat) : Prop := G * T < U32 ∧ N + 2 * (G * T) ≤ U64

/-- The per-worker index lists of one sweep are defined, duplicate-free,
pairwise disjoint, and cover exactly `0 .. N - 1`. -/
def DisjointCover (fuel N G T : Nat) : Prop :=
  (∀ b t, b < G → t < T → ∃ l, workerIndices fuel G T b t N = .ok l ∧ l.Nodup) ∧
  (∀ b t b' t' l l' i, b < G → t < T → b' < G → t' < T →
    workerIndices fuel G T b t N = .ok l → workerIndices fuel G T b' t' N = .ok l' →
    i ∈ l → i ∈ l' → (b, t) = (b', t')) ∧
  (∀ i, i < N ↔ ∃ b t l, b < G ∧ t < T ∧ workerIndices fuel G T b t N = .ok l ∧ i ∈ l)

/-- A result that is not an indexing fault and, when it is a value, satisfies `P`. -/
def Safe {σ : Type} (P : σ → Prop) (r : Except Fault σ) : Prop :=
  match r with
  | .ok s => P s
  | .error e => e ≠ Fault.outOfBounds

/-- After the clamps `start_idx <= end_idx <= N`. -/
def ClampedOrdered (N G T b t : Nat) : Prop :=
  ∃ p, partition G T b t N = .ok p ∧ p.start_idx ≤ p.end_idx ∧ p.end_idx ≤ N

/-- Element types the tool is built for, with `sizeof(float) = 4` and
`sizeof(double) = 8`. -/
inductive Precision where
  | single
  | double
  deriving DecidableEq, Repr

/-- Value of `sizeof(T)`. -/
def Precision.sizeof : Precision → Nat
  | Precision.single => 4
  | Precision.double => 8

/-- The base operation for depth at least 2 in the words of the specification:
`beta = beta * alpha + A[i]`. -/
def specBaseOp (Ai alpha beta : ℚ) : ℚ := beta * alpha + Ai

/-- The repetition scheme in the words of the specification: depth `d` applies the
core update `d` times, one `KERNEL1` for `d = 1` and `d` copies of `KERNEL2`
otherwise. -/
def specBodyStmts (d : Nat) : List Stmt :=
  if d = 1 then [Stmt.kernel1] else List.replicate d Stmt.kernel2

/-- For `N = 0` the partition is computed with `elem_per_thr = 0` and
`start_idx = end_idx = 0`. -/
def EmptyPartition (G T b t : Nat) : Prop :=
  ∃ p, partition G T b t 0 = .ok p ∧ p.elem_per_thr = 0 ∧ p.start_idx = 0 ∧ p.end_idx = 0

/-- Index `i < N` belongs to the residue class of one of the workers of `sched`. -/
def servedBy (G T N : Nat) (sched : List (Nat × Nat)) (i : Nat) : Prop :=
  i < N ∧ ∃ w ∈ sched, i % (G * T) = w.1 * T + w.2

instance (G T N : Nat) (sched : List (Nat × Nat)) : DecidablePred (servedBy G T N sched) :=
  fun i => inferInstanceAs (Decidable (i < N ∧ ∃ w ∈ sched, i % (G * T) = w.1 * T + w.2))

/-- Whatever the order in which the workers of the launch run to completion, the
parallel run returns the buffer that `kernel` returns. -/
def ParallelMatchesSequential (sizeofT ERT_FLOP fuel N ntrials G T : Nat) (A : List ℚ) : Prop :=
  ∀ sched : List (Nat × Nat), sched.Perm (grid G T) →
    ∃ B, (kernel sizeofT ERT_FLOP N ntrials A).2 = .ok B ∧
      (gpuKernel sizeofT ERT_FLOP fuel G T sched N ntrials A).2 = .ok B

/-- One trial of `kernel` with the element loop run over the indices of `order`,
in that order, instead of `0, 1, ..., nsize - 1`. -/
def kernelTrialOrder (ERT_FLOP : Nat) (order : List Nat) (s : List ℚ × ℚ) :
    Except Fault (List ℚ × ℚ) := do
  let A ← order.foldlM (fun A i => loopBody ERT_FLOP s.2 i A) s.1
  pure (A, decay s.2)

/-- The trial loop of `kernel` with trial `j` traversing the indices in the order
`orders j`. -/
def kernelStateOrder (ERT_FLOP : Nat) (orders : Nat → List Nat) (ntrials : Nat) (A : List ℚ) :
    Except Fault (List ℚ × ℚ) :=
  countLoop (fun j s => kernelTrialOrder ERT_FLOP (orders j) s) ntrials 0 (A, 1 / 2)

/-- The unclamped locals of worker `(b, t)` are those of the specification: the
division does not fault, `elem_per_thr` is `ceil(N / W)` for `W = G * T`, the
start index is `b * T + t`, the end index is the start plus `ceil(N / W) * W` and
is at least `N`, and the stride is `W`. -/
def PartitionAsDefined (N G T b t : Nat) : Prop :=
  ∃ p, partitionRaw G T b t N = .ok p ∧
    p.elem_per_thr = (N + G * T - 1) / (G * T) ∧
    p.start_idx = b * T + t ∧
    p.end_idx = b * T + t + (N + G * T - 1) / (G * T) * (G * T) ∧
    N ≤ p.end_idx ∧
    p.stride_idx = G * T

/-- The worker count of line 35 is `G * T` and not zero, and the block offset
of line 37 is `b * T`. -/
def WorkerCountExact (N G T b t : Nat) : Prop :=
  ∃ p, partitionRaw G T b t N = .ok p ∧ p.total_thr = G * T ∧ p.total_thr ≠ 0 ∧
    p.blockOffset = b * T

/-- Every worker `(b, t)` visits exactly the indices below `N` congruent to
`b * T + t` modulo `W = G * T`, in increasing order and `W` apart, at most
`ceil(N / W)` of them, and no worker visits more than one index more than
another. -/
def InterleavedBalanced (fuel N G T : Nat) : Prop :=
  ∀ b t, b < G → t < T → ∃ l, workerIndices fuel G T b t N = .ok l ∧
    (∀ i, i ∈ l ↔ i < N ∧ i % (G * T) = b * T + t) ∧
    (∀ k, k < l.length → l[k]? = some (b * T + t + G * T * k)) ∧
    l.length ≤ (N + G * T - 1) / (G * T) ∧
    ∀ b' t' l', b' < G → t' < T → workerIndices fuel G T b' t' N = .ok l' →
      l.length ≤ l'.length + 1

/-- Floating-point operations of one statement: `KERNEL1` is one add, `KERNEL2`
one multiply and one add. -/
def Stmt.flops : Stmt → Nat
  | Stmt.kernel1 => 1
  | Stmt.kernel2 => 2

/-- Floating-point operations of one run of the loop body, which `kernel` and
`block_stride` execute once per element per trial. -/
def bodyFlops (ERT_FLOP : Nat) : Nat := ((bodyStmts ERT_FLOP).map Stmt.flops).sum

/-- Buffer `B` has the length of `A` and agrees with it at every index `i >= N`. -/
def FrameBeyond (N : Nat) (A B : List ℚ) : Prop :=
  B.length = A.length ∧ ∀ i, N ≤ i → B[i]? = A[i]?

/-! ## Lemmas on the machine model -/

theorem ok_bind {α β : Type} (x : α) (f : α → Except Fault β) :
    (Except.ok x >>= f) = f x := rfl

theorem error_bind {α β : Type} (e : Fault) (f : α → Except Fault β) :
    ((Except.error e : Except Fault α) >>= f) = Except.error e := rfl

theorem countLoop_eq_foldlM {σ : Type} (body : Nat → σ → Except Fault σ) (n i : Nat) (s : σ) :
    countLoop body n i s = (List.range' i n).foldlM (fun s i => body i s) s := by
  induction n generalizing i s with
  | zero => rfl
  | succ n ih =>
    rw [List.range'_succ, List.foldlM_cons, countLoop]
    congr 1
    funext s1
    exact ih (i + 1) s1

theorem sweepCount_of_le {e st i0 : Nat} (hst : 0 < st) (h : e ≤ i0) : sweepCount e st i0 = 0 := by
  unfold sweepCount
  have : e - i0 + st - 1 < st := by omega
  exact Nat.div_eq_of_lt this

theorem sweepCount_of_lt {e st i0 : Nat} (hst : 0 < st) (h : i0 < e) :
    sweepCount e st i0 = sweepCount e st (i0 + st) + 1 := by
  unfold sweepCount
  have h1 : e - i0 + st - 1 = (e - (i0 + st) + st - 1) + st ∨
      (e - i0 + st - 1 < 2 * st ∧ st ≤ e - i0 + st - 1 ∧ e - (i0 + st) + st - 1 < st) := by omega
  rcases h1 with h1 | ⟨h1, h2, h3⟩
  · rw [h1, Nat.add_div_right _ hst]
  · rw [Nat.div_eq_of_lt h3]
    have : (e - i0 + st - 1) / st = 1 := by
      apply Nat.div_eq_of_lt_le
      · simpa using h2
      · simpa [Nat.two_mul, Nat.add_mul] using h1
    simpa using this

theorem strideLoop_eq_foldlM {σ : Type} (body : Nat → σ → Except Fault σ) (e st : Nat)
    (hst : 0 < st) (hwrap : e + st ≤ U64) (fuel i : Nat) (s : σ) (hfuel : e ≤ i + fuel) :
    strideLoop body e st fuel i s
      = (List.range' i (sweepCount e st i) st).foldlM (fun s i => body i s) s := by
  induction fuel generalizing i s with
  | zero =>
    have hle : e ≤ i := by omega
    rw [sweepCount_of_le hst hle]
    simp [strideLoop, Nat.not_lt.mpr hle]
    rfl
  | succ fuel ih =>
    by_cases hlt : i < e
    · have hmod : (i + st) % U64 = i + st := Nat.mod_eq_of_lt (by omega)
      rw [sweepCount_of_lt hst hlt, List.range'_succ, List.foldlM_cons, strideLoop, if_pos hlt, hmod]
      congr 1
      funext s1
      exact ih (i + st) s1 (by omega)
    · have hle : e ≤ i := by omega
      rw [sweepCount_of_le hst hle]
      simp [strideLoop, hlt]
      rfl

theorem mem_sweep_iff {e st i0 m : Nat} (hst : 0 < st) :
    m ∈ List.range' i0 (sweepCount e st i0) st ↔ ∃ k, m = i0 + st * k ∧ m < e := by
  rw [List.mem_range']
  unfold sweepCount
  constructor
  · rintro ⟨k, hk, rfl⟩
    refine ⟨k, rfl, ?_⟩
    have h1 : (k + 1) * st ≤ e - i0 + st - 1 := (Nat.le_div_iff_mul_le hst).mp hk
    rw [Nat.add_mul, Nat.one_mul, Nat.mul_comm] at h1
    omega
  · rintro ⟨k, rfl, hlt⟩
    refine ⟨k, ?_, rfl⟩
    have : (k + 1) * st ≤ e - i0 + st - 1 := by
      rw [Nat.add_mul, Nat.one_mul, Nat.mul_comm]
      omega
    exact (Nat.le_div_iff_mul_le hst).mpr this

/-! ## Lemmas on buffers -/

theorem length_applyOn (S : Nat → Prop) [DecidablePred S] (f : ℚ → ℚ) (A : List ℚ) :
    (applyOn S f A).length = A.length := by
  simp [applyOn]

theorem getElem?_applyOn (S : Nat → Prop) [DecidablePred S] (f : ℚ → ℚ) (A : List ℚ) (i : Nat) :
    (applyOn S f A)[i]? = (A[i]?).map (fun x => if S i then f x else x) := by
  simp [applyOn, List.getElem?_mapIdx]

theorem applyOn_congr {S S' : Nat → Prop} [DecidablePred S] [DecidablePred S'] (f : ℚ → ℚ)
    (A : List ℚ) (h : ∀ i, i < A.length → (S i ↔ S' i)) : applyOn S f A = applyOn S' f A := by
  apply List.ext_getElem?
  intro i
  rw [getElem?_applyOn, getElem?_applyOn]
  by_cases hi : i < A.length
  · rw [List.getElem?_eq_getElem hi]
    simp only [Option.map_some', h i hi]
  · rw [List.getElem?_eq_none (by omega)]
    rfl

theorem applyOn_false (S : Nat → Prop) [DecidablePred S] (f : ℚ → ℚ) (A : List ℚ)
    (h : ∀ i, i < A.length → ¬ S i) : applyOn S f A = A := by
  apply List.ext_getElem?
  intro i
  rw [getElem?_applyOn]
  by_cases hi : i < A.length
  · rw [List.getElem?_eq_getElem hi]
    simp [h i hi]
  · rw [List.getElem?_eq_none (by omega)]
    rfl

theorem applyOn_id (S : Nat → Prop) [DecidablePred S] (A : List ℚ) :
    applyOn S (fun x => x) A = A := by
  apply List.ext_getElem?
  intro i
  rw [getElem?_applyOn]
  cases A[i]? <;> simp

theorem applyOn_comp (S : Nat → Prop) [DecidablePred S] (f g : ℚ → ℚ) (A : List ℚ) :
    applyOn S g (applyOn S f A) = applyOn S (fun x => g (f x)) A := by
  apply List.ext_getElem?
  intro i
  rw [getElem?_applyOn, getElem?_applyOn, getElem?_applyOn]
  cases A[i]? with
  | none => rfl
  | some x => by_cases hS : S i <;> simp [hS]

theorem applyOn_union {S S' : Nat → Prop} [DecidablePred S] [DecidablePred S'] (f : ℚ → ℚ)
    (A : List ℚ) (hdisj : ∀ i, S i → ¬ S' i) :
    applyOn S' f (applyOn S f A) = applyOn (fun i => S i ∨ S' i) f A := by
  apply List.ext_getElem?
  intro i
  rw [getElem?_applyOn, getElem?_applyOn, getElem?_applyOn]
  cases A[i]? with
  | none => rfl
  | some x =>
    by_cases hS : S i
    · simp [hS, hdisj i hS]
    · by_cases hS' : S' i <;> simp [hS, hS']

theorem pointUpdate_of_lt (g : ℚ → ℚ) {i : Nat} {A : List ℚ} (h : i < A.length) :
    pointUpdate g i A = .ok (applyOn (fun j => j = i) g A) := by
  unfold pointUpdate
  rw [dif_pos h]
  congr 1
  apply List.ext_getElem?
  intro j
  rw [getElem?_applyOn, List.getElem?_set]
  by_cases hj : i = j
  · subst hj
    simp [h]
  · have hj' : ¬ j = i := fun e => hj e.symm
    simp only [hj, hj', if_false]
    cases A[j]? <;> rfl

theorem foldlM_pointUpdate (g : ℚ → ℚ) (idxs : List Nat) (A : List ℚ) (hnd : idxs.Nodup)
    (hlt : ∀ i ∈ idxs, i < A.length) :
    idxs.foldlM (fun A i => pointUpdate g i A) A = .ok (applyOn (fun j => j ∈ idxs) g A) := by
  induction idxs generalizing A with
  | nil =>
    rw [List.foldlM_nil, applyOn_false _ _ _ (by simp)]
    rfl
  | cons i rest ih =>
    rw [List.foldlM_cons, pointUpdate_of_lt g (hlt i (List.mem_cons_self _ _)), ok_bind]
    have hnd' := List.nodup_cons.mp hnd
    rw [ih _ hnd'.2 (by
      intro j hj
      rw [length_applyOn]
      exact hlt j (List.mem_cons_of_mem _ hj))]
    congr 1
    rw [applyOn_union g A (by
      intro j hj hj'
      subst hj
      exact hnd'.1 hj')]
    apply applyOn_congr
    intro j _
    simp [List.mem_cons]

theorem foldlM_ok {α β : Type} (g : β → α → β) (l : List α) (b : β) :
    l.foldlM (fun b a => (Except.ok (g b a) : Except Fault β)) b = .ok (l.foldl g b) := by
  induction l generalizing b with
  | nil => rfl
  | cons a l ih => rw [List.foldlM_cons, ok_bind, ih, List.foldl_cons]

theorem load_of_lt {A : List ℚ} {i : Nat} (h : i < A.length) : load A i = .ok (A.get ⟨i, h⟩) := by
  unfold load
  rw [List.getElem?_eq_getElem h]
  rfl

theorem load_of_ge {A : List ℚ} {i : Nat} (h : A.length ≤ i) : load A i = .error .outOfBounds := by
  unfold load
  rw [List.getElem?_eq_none h]

theorem exec_of_lt {A : List ℚ} {i : Nat} (h : i < A.length) (alpha : ℚ) (s : Stmt) (beta : ℚ) :
    s.exec A i alpha beta = .ok (s.eval (A.get ⟨i, h⟩) alpha beta) := by
  unfold Stmt.exec
  rw [load_of_lt h]
  cases s <;> rfl

theorem exec_of_ge {A : List ℚ} {i : Nat} (h : A.length ≤ i) (alpha : ℚ) (s : Stmt) (beta : ℚ) :
    s.exec A i alpha beta = .error .outOfBounds := by
  unfold Stmt.exec
  rw [load_of_ge h]
  rfl

theorem loopBody_eq_pointUpdate (ERT_FLOP : Nat) (alpha : ℚ) (i : Nat) (A : List ℚ) :
    loopBody ERT_FLOP alpha i A = pointUpdate (updElem ERT_FLOP alpha) i A := by
  unfold loopBody pointUpdate
  by_cases h : i < A.length
  · have : (fun beta (s : Stmt) => s.exec A i alpha beta)
        = fun beta s => (Except.ok (s.eval (A.get ⟨i, h⟩) alpha beta) : Except Fault ℚ) := by
      funext beta s
      exact exec_of_lt h alpha s beta
    rw [this, foldlM_ok, ok_bind, dif_pos h, store, if_pos h]
    rfl
  · rw [dif_neg h]
    cases hfold : (bodyStmts ERT_FLOP).foldlM (fun beta s => s.exec A i alpha beta) (4 / 5) with
    | error e =>
      have he : e = Fault.outOfBounds := by
        cases hl : bodyStmts ERT_FLOP with
        | nil =>
          rw [hl] at hfold
          cases hfold
        | cons s l =>
          rw [hl, List.foldlM_cons, exec_of_ge (Nat.le_of_not_lt h), error_bind] at hfold
          injection hfold with hfold
          exact hfold.symm
      rw [error_bind, he]
    | ok beta => rw [ok_bind, store, if_neg h]

theorem store_eq_pointUpdate (v : ℚ) (i : Nat) (A : List ℚ) :
    store A i v = pointUpdate (fun _ => v) i A := by
  unfold store pointUpdate
  by_cases h : i < A.length
  · rw [if_pos h, dif_pos h]
  · rw [if_neg h, dif_neg h]

/-! ## Sweeps and trials -/

theorem sweep_indices (ERT_FLOP : Nat) (alpha : ℚ) (idxs : List Nat) (A : List ℚ)
    (hnd : idxs.Nodup) (hlt : ∀ i ∈ idxs, i < A.length) :
    idxs.foldlM (fun A i => loopBody ERT_FLOP alpha i A) A
      = .ok (applyOn (fun j => j ∈ idxs) (updElem ERT_FLOP alpha) A) := by
  have : (fun A i => loopBody ERT_FLOP alpha i A)
      = fun A i => pointUpdate (updElem ERT_FLOP alpha) i A := by
    funext A i
    exact loopBody_eq_pointUpdate ERT_FLOP alpha i A
  rw [this]
  exact foldlM_pointUpdate _ idxs A hnd hlt

theorem mem_range'_one {n j : Nat} : j ∈ List.range' 0 n ↔ j < n := by
  rw [List.mem_range']
  constructor
  · rintro ⟨i, hi, rfl⟩
    omega
  · intro h
    exact ⟨j, h, by omega⟩

theorem mem_sweep_iff_onStride {e st i0 m : Nat} (hst : 0 < st) :
    m ∈ List.range' i0 (sweepCount e st i0) st ↔ onStride i0 st e m := by
  rw [mem_sweep_iff hst]
  unfold onStride
  constructor
  · rintro ⟨k, rfl, hlt⟩
    refine ⟨by omega, ?_, hlt⟩
    rw [Nat.add_sub_cancel_left, Nat.mul_mod_right]
  · rintro ⟨hle, hmod, hlt⟩
    refine ⟨(m - i0) / st, ?_, hlt⟩
    rw [Nat.mul_div_cancel' (Nat.dvd_of_mod_eq_zero hmod)]
    omega

theorem countLoop_loopBody (ERT_FLOP : Nat) (alpha : ℚ) (nsize : Nat) (A : List ℚ)
    (hA : nsize ≤ A.length) :
    countLoop (loopBody ERT_FLOP alpha) nsize 0 A
      = .ok (applyOn (fun j => j < nsize) (updElem ERT_FLOP alpha) A) := by
  rw [countLoop_eq_foldlM, sweep_indices ERT_FLOP alpha _ A (List.nodup_range' 0 nsize 1)
    (fun i hi => Nat.lt_of_lt_of_le (mem_range'_one.mp hi) hA)]
  congr 1
  exact applyOn_congr _ _ (fun i _ => mem_range'_one)

theorem strideLoop_loopBody (ERT_FLOP : Nat) (alpha : ℚ) (e st fuel i0 : Nat) (A : List ℚ)
    (hst : 0 < st) (hwrap : e + st ≤ U64) (hfuel : e ≤ i0 + fuel) (hA : e ≤ A.length) :
    strideLoop (loopBody ERT_FLOP alpha) e st fuel i0 A
      = .ok (applyOn (onStride i0 st e) (updElem ERT_FLOP alpha) A) := by
  rw [strideLoop_eq_foldlM _ e st hst hwrap fuel i0 A hfuel,
    sweep_indices ERT_FLOP alpha _ A (List.nodup_range' _ _ st hst)
      (fun i hi => Nat.lt_of_lt_of_le ((mem_sweep_iff_onStride hst).mp hi).2.2 hA)]
  congr 1
  exact applyOn_congr _ _ (fun i _ => mem_sweep_iff_onStride hst)

theorem trials_generic (ERT_FLOP : Nat) (S : Nat → Prop) [DecidablePred S]
    (trial : List ℚ × ℚ → Except Fault (List ℚ × ℚ)) (L : Nat)
    (htrial : ∀ A alpha, A.length = L →
      trial (A, alpha) = .ok (applyOn S (updElem ERT_FLOP alpha) A, decay alpha))
    (n j : Nat) (A : List ℚ) (alpha : ℚ) (hA : A.length = L) :
    countLoop (fun _ s => trial s) n j (A, alpha)
      = .ok (applyOn S (elemTrials ERT_FLOP n alpha) A, decay^[n] alpha) := by
  induction n generalizing j A alpha with
  | zero =>
    have : elemTrials ERT_FLOP 0 alpha = fun x => x := rfl
    rw [this, applyOn_id]
    rfl
  | succ n ih =>
    rw [countLoop, htrial A alpha hA, ok_bind,
      ih (j + 1) _ (decay alpha) (by rw [length_applyOn]; exact hA), applyOn_comp]
    rfl

theorem kernelTrial_eq (ERT_FLOP nsize : Nat) (A : List ℚ) (alpha : ℚ) (hA : nsize ≤ A.length) :
    kernelTrial ERT_FLOP nsize (A, alpha)
      = .ok (applyOn (fun j => j < nsize) (updElem ERT_FLOP alpha) A, decay alpha) := by
  unfold kernelTrial
  simp only []
  rw [countLoop_loopBody ERT_FLOP alpha nsize A hA]
  rfl

theorem kernelState_eq (ERT_FLOP nsize ntrials : Nat) (A : List ℚ) (hA : nsize ≤ A.length) :
    kernelState ERT_FLOP nsize ntrials A
      = .ok (applyOn (fun j => j < nsize) (elemTrials ERT_FLOP ntrials (1 / 2)) A,
          decay^[ntrials] (1 / 2)) := by
  unfold kernelState
  exact trials_generic ERT_FLOP (fun j => j < nsize) (kernelTrial ERT_FLOP nsize) A.length
    (fun B alpha hB => kernelTrial_eq ERT_FLOP nsize B alpha (by omega)) ntrials 0 A (1 / 2) rfl

theorem kernel_eq (sizeofT ERT_FLOP nsize ntrials : Nat) (A : List ℚ) (hA : nsize ≤ A.length) :
    (kernel sizeofT ERT_FLOP nsize ntrials A).2
      = .ok (applyOn (fun j => j < nsize) (elemTrials ERT_FLOP ntrials (1 / 2)) A) := by
  unfold kernel
  simp only []
  rw [kernelState_eq ERT_FLOP nsize ntrials A hA]
  rfl

theorem strideTrial_eq (ERT_FLOP fuel : Nat) (p : Partition) (A : List ℚ) (alpha : ℚ)
    (hst : 0 < p.stride_idx) (hwrap : p.end_idx + p.stride_idx ≤ U64)
    (hfuel : p.end_idx ≤ p.start_idx + fuel) (hA : p.end_idx ≤ A.length) :
    strideTrial ERT_FLOP fuel p (A, alpha)
      = .ok (applyOn (onStride p.start_idx p.stride_idx p.end_idx)
          (updElem ERT_FLOP alpha) A, decay alpha) := by
  unfold strideTrial
  simp only []
  rw [strideLoop_loopBody ERT_FLOP alpha _ _ fuel _ A hst hwrap hfuel hA]
  rfl

theorem strideTrials_eq (ERT_FLOP fuel : Nat) (p : Partition) (ntrials : Nat) (A : List ℚ)
    (hst : 0 < p.stride_idx) (hwrap : p.end_idx + p.stride_idx ≤ U64)
    (hfuel : p.end_idx ≤ p.start_idx + fuel) (hA : p.end_idx ≤ A.length) :
    countLoop (fun _ s => strideTrial ERT_FLOP fuel p s) ntrials 0 (A, 1 / 2)
      = .ok (applyOn (onStride p.start_idx p.stride_idx p.end_idx)
          (elemTrials ERT_FLOP ntrials (1 / 2)) A, decay^[ntrials] (1 / 2)) := by
  exact trials_generic ERT_FLOP _ (strideTrial ERT_FLOP fuel p) A.length
    (fun B alpha hB => strideTrial_eq ERT_FLOP fuel p B alpha hst hwrap hfuel (by omega))
    ntrials 0 A (1 / 2) rfl

/-! ## Partition arithmetic -/

theorem ceil_mul_bounds (N W : Nat) (hW : 0 < W) :
    N ≤ (N + W - 1) / W * W ∧ (N + W - 1) / W * W ≤ N + W - 1 := by
  constructor
  · have h := Nat.lt_mul_div_succ (N + W - 1) hW
    rw [Nat.mul_add, Nat.mul_one, Nat.mul_comm] at h
    omega
  · exact Nat.div_mul_le_self _ _

theorem partitionRaw_eq {G T b t N : Nat} (hW : 0 < (G * T) % U32)
    (hN : (b * T) % U32 + t + N + (G * T) % U32 ≤ U64) :
    partitionRaw G T b t N = .ok
      ⟨(G * T) % U32, (N + (G * T) % U32 - 1) / ((G * T) % U32), (b * T) % U32,
        (b * T) % U32 + t,
        (b * T) % U32 + t + (N + (G * T) % U32 - 1) / ((G * T) % U32) * ((G * T) % U32),
        (G * T) % U32⟩ := by
  obtain ⟨-, h2⟩ := ceil_mul_bounds N ((G * T) % U32) hW
  unfold partitionRaw
  generalize (G * T) % U32 = W at *
  generalize (b * T) % U32 = bo at *
  have hU : U64 = 2 ^ 64 := rfl
  have e1 : (W + U64 - 1) % U64 = W - 1 := by
    have : W + U64 - 1 = (W - 1) + U64 := by omega
    rw [this, Nat.add_mod_right]
    exact Nat.mod_eq_of_lt (by omega)
  have e2 : (N + (W - 1)) % U64 = N + W - 1 := by
    rw [Nat.mod_eq_of_lt (by omega)]
    omega
  have e3 : ((N + W - 1) / W * W) % U64 = (N + W - 1) / W * W := Nat.mod_eq_of_lt (by omega)
  have e4 : (bo + t) % U64 = bo + t := Nat.mod_eq_of_lt (by omega)
  have e5 : (bo + t + (N + W - 1) / W * W) % U64 = bo + t + (N + W - 1) / W * W :=
    Nat.mod_eq_of_lt (by omega)
  simp only [Nat.ne_of_gt hW, if_false, e1, e2, e3, e4, e5]

theorem partition_eq {G T b t N : Nat} (hW : 0 < (G * T) % U32)
    (hN : (b * T) % U32 + t + N + (G * T) % U32 ≤ U64) :
    partition G T b t N = .ok
      ⟨(G * T) % U32, (N + (G * T) % U32 - 1) / ((G * T) % U32), (b * T) % U32,
        clampStart ((b * T) % U32 + t) N, N, (G * T) % U32⟩ := by
  obtain ⟨h1, -⟩ := ceil_mul_bounds N ((G * T) % U32) hW
  unfold partition
  rw [partitionRaw_eq hW hN]
  generalize (G * T) % U32 = W at *
  generalize (b * T) % U32 = bo at *
  unfold clamp clampStart
  by_cases hs : bo + t > N
  · have he : bo + t + (N + W - 1) / W * W > N := by omega
    simp [Except.map, hs, he]
  · by_cases he : bo + t + (N + W - 1) / W * W > N
    · simp [Except.map, hs, he]
    · have : bo + t + (N + W - 1) / W * W = N := by omega
      simp [Except.map, hs, this]

theorem partition_div_zero {G T b t N : Nat} (hW : (G * T) % U32 = 0) :
    partition G T b t N = .error .divByZero := by
  unfold partition partitionRaw
  simp [hW, Except.map]

theorem clampStart_le (s N : Nat) : clampStart s N ≤ N := by
  unfold clampStart
  split <;> omega

theorem onStride_clampStart_iff {s W N j : Nat} (hs : s < W) :
    onStride (clampStart s N) W N j ↔ j < N ∧ j % W = s := by
  unfold onStride clampStart
  by_cases h : s > N
  · rw [if_pos h]
    constructor
    · rintro ⟨h1, -, h3⟩
      omega
    · rintro ⟨h1, h2⟩
      have := Nat.mod_le j W
      omega
  · rw [if_neg h]
    constructor
    · rintro ⟨h1, h2, h3⟩
      refine ⟨h3, ?_⟩
      have hj : j = s + W * ((j - s) / W) := by
        rw [Nat.mul_div_cancel' (Nat.dvd_of_mod_eq_zero h2)]
        omega
      rw [hj, Nat.add_mul_mod_self_left, Nat.mod_eq_of_lt hs]
    · rintro ⟨h1, h2⟩
      have hj := Nat.mod_add_div j W
      refine ⟨by have := Nat.mod_le j W; omega, ?_, h1⟩
      have : j - s = W * (j / W) := by omega
      rw [this, Nat.mul_mod_right]

theorem sweepIndices_eq (fuel : Nat) (p : Partition) (hst : 0 < p.stride_idx)
    (hwrap : p.end_idx + p.stride_idx ≤ U64) (hfuel : p.end_idx ≤ p.start_idx + fuel) :
    sweepIndices fuel p
      = .ok (List.range' p.start_idx (sweepCount p.end_idx p.stride_idx p.start_idx) p.stride_idx) := by
  unfold sweepIndices
  rw [strideLoop_eq_foldlM _ _ _ hst hwrap fuel _ _ hfuel, foldlM_ok]
  congr 1
  generalize List.range' p.start_idx _ p.stride_idx = l
  have : ∀ acc : List Nat, List.foldl (fun visited i => visited ++ [i]) acc l = acc ++ l := by
    induction l with
    | nil => intro acc; simp
    | cons a l ih => intro acc; rw [List.foldl_cons, ih]; simp
  simpa using this []

theorem workerIndices_eq {fuel G T b t N : Nat} (hW : 0 < (G * T) % U32)
    (hN : (b * T) % U32 + t + N + (G * T) % U32 ≤ U64) (hfuel : N ≤ fuel) :
    workerIndices fuel G T b t N
      = .ok (List.range' (clampStart ((b * T) % U32 + t) N)
          (sweepCount N ((G * T) % U32) (clampStart ((b * T) % U32 + t) N)) ((G * T) % U32)) := by
  unfold workerIndices
  rw [partition_eq hW hN, ok_bind, sweepIndices_eq fuel _ hW (by simp only []; omega)
    (by simp only []; omega)]

theorem block_stride_eq {ERT_FLOP fuel G T b t ntrials N : Nat} {A : List ℚ}
    (hW : 0 < (G * T) % U32) (hN : (b * T) % U32 + t + N + (G * T) % U32 ≤ U64)
    (hfuel : N ≤ fuel) (hA : N ≤ A.length) :
    block_stride ERT_FLOP fuel G T b t ntrials N A
      = .ok (applyOn (onStride (clampStart ((b * T) % U32 + t) N) ((G * T) % U32) N)
          (elemTrials ERT_FLOP ntrials (1 / 2)) A) := by
  unfold block_stride blockStrideState
  rw [partition_eq hW hN, ok_bind, strideTrials_eq ERT_FLOP fuel _ ntrials A hW
    (by simp only []; omega) (by simp only []; omega) hA]
  rfl

/-! ## Disjoint cover -/

theorem worker_lt {G T b t : Nat} (hb : b < G) (ht : t < T) : b * T + t < G * T := by
  have : (b + 1) * T ≤ G * T := Nat.mul_le_mul_right T hb
  rw [Nat.add_mul, Nat.one_mul] at this
  omega

theorem worker_inj {T b t b' t' : Nat} (ht : t < T) (ht' : t' < T)
    (h : b * T + t = b' * T + t') : b = b' ∧ t = t' := by
  have hT : 0 < T := by omega
  have h1 : (b * T + t) / T = b := by
    rw [Nat.mul_comm, Nat.mul_add_div hT, Nat.div_eq_of_lt ht, Nat.add_zero]
  have h2 : (b' * T + t') / T = b' := by
    rw [Nat.mul_comm, Nat.mul_add_div hT, Nat.div_eq_of_lt ht', Nat.add_zero]
  have hb : b = b' := by rw [← h1, ← h2, h]
  subst hb
  exact ⟨rfl, by omega⟩

theorem noWrap_facts {N G T b t : Nat} (hG : 1 ≤ G) (hT : 1 ≤ T) (hnw : NoWrap N G T)
    (hb : b < G) (ht : t < T) :
    (G * T) % U32 = G * T ∧ (b * T) % U32 = b * T ∧ 0 < G * T ∧ b * T + t < G * T ∧
      b * T + t + N + G * T ≤ U64 := by
  obtain ⟨h1, h2⟩ := hnw
  have hw := worker_lt hb ht
  have hpos : 0 < G * T := Nat.mul_pos hG hT
  refine ⟨Nat.mod_eq_of_lt h1, Nat.mod_eq_of_lt (by omega), hpos, hw, by omega⟩

theorem workerIndices_noWrap {fuel N G T b t : Nat} (hG : 1 ≤ G) (hT : 1 ≤ T)
    (hnw : NoWrap N G T) (hfuel : N ≤ fuel) (hb : b < G) (ht : t < T) :
    ∃ l, workerIndices fuel G T b t N = .ok l ∧ l.Nodup ∧
      ∀ i, i ∈ l ↔ i < N ∧ i % (G * T) = b * T + t := by
  obtain ⟨e1, e2, hpos, hw, hsum⟩ := noWrap_facts hG hT hnw hb ht
  have h := @workerIndices_eq fuel G T b t N (by rw [e1]; exact hpos) (by rw [e1, e2]; exact hsum)
    hfuel
  rw [e1, e2] at h
  refine ⟨_, h, List.nodup_range' _ _ _ hpos, ?_⟩
  intro i
  rw [mem_sweep_iff_onStride hpos, onStride_clampStart_iff hw]

/-- C1 (amended): when nothing wraps (`G * T < 2^32` and `N + 2 * G * T <= 2^64`),
the index lists visited by the `G * T` workers of `block_stride` in one sweep are
duplicate-free, pairwise disjoint, and their union is exactly `0 .. N - 1`. -/
theorem C1_disjoint_cover (fuel N G T : Nat) (hG : 1 ≤ G) (hT : 1 ≤ T) (hnw : NoWrap N G T)
    (hfuel : N ≤ fuel) : DisjointCover fuel N G T := by
  refine ⟨?_, ?_, ?_⟩
  · intro b t hb ht
    obtain ⟨l, hl, hnd, -⟩ := workerIndices_noWrap hG hT hnw hfuel hb ht
    exact ⟨l, hl, hnd⟩
  · intro b t b' t' l l' i hb ht hb' ht' hl hl' hi hi'
    obtain ⟨m, hm, -, hmem⟩ := workerIndices_noWrap hG hT hnw hfuel hb ht
    obtain ⟨m', hm', -, hmem'⟩ := workerIndices_noWrap hG hT hnw hfuel hb' ht'
    rw [hl] at hm
    rw [hl'] at hm'
    injection hm with hm
    injection hm' with hm'
    subst hm
    subst hm'
    have h1 := ((hmem i).mp hi).2
    have h2 := ((hmem' i).mp hi').2
    obtain ⟨e1, e2⟩ := worker_inj ht ht' (h1.symm.trans h2)
    rw [e1, e2]
  · intro i
    have hpos : 0 < G * T := Nat.mul_pos hG hT
    constructor
    · intro hi
      have hlt : i % (G * T) < G * T := Nat.mod_lt _ hpos
      have hb : i % (G * T) / T < G :=
        Nat.div_lt_of_lt_mul (by rw [Nat.mul_comm T G]; exact hlt)
      have ht : i % (G * T) % T < T := Nat.mod_lt _ (by omega)
      obtain ⟨l, hl, -, hmem⟩ := workerIndices_noWrap hG hT hnw hfuel hb ht
      refine ⟨_, _, l, hb, ht, hl, (hmem i).mpr ⟨hi, ?_⟩⟩
      rw [Nat.mul_comm (i % (G * T) / T) T]
      exact (Nat.div_add_mod _ _).symm
    · rintro ⟨b, t, l, hb, ht, hl, hi⟩
      obtain ⟨m, hm, -, hmem⟩ := workerIndices_noWrap hG hT hnw hfuel hb ht
      rw [hl] at hm
      injection hm with hm
      subst hm
      exact ((hmem i).mp hi).1

/-- Witness for C1: the launch `N = 10`, `G = 2`, `T = 2` of the specification,
with the four index lists. -/
theorem C1_disjoint_cover_witness :
    workerIndices 10 2 2 0 0 10 = .ok [0, 4, 8] ∧ workerIndices 10 2 2 0 1 10 = .ok [1, 5, 9] ∧
    workerIndices 10 2 2 1 0 10 = .ok [2, 6] ∧ workerIndices 10 2 2 1 1 10 = .ok [3, 7] ∧
    DisjointCover 10 10 2 2 :=
  ⟨rfl, rfl, rfl, rfl,
    C1_disjoint_cover 10 10 2 2 (by decide) (by decide) ⟨by decide, by decide⟩ (by decide)⟩

/-- Counterexample to C1 as stated.  With `G = 4194305`, `T = 1024` the 32-bit
product `gridDim.x * blockDim.x` wraps to 1024, and for `N = 1` the workers
`(0, 0)` and `(4194304, 0)` both visit index 0.  With `N = 2^64 - 1`, `G = 1`,
`T = 2` the 64-bit sum of line 36 wraps to 0, `elem_per_thr` is 0 and no worker
visits any index. -/
theorem C1_counterexample :
    (1 ≤ 4194305 ∧ 1 ≤ 1024) ∧
    workerIndices 1 4194305 1024 0 0 1 = .ok [0] ∧
    workerIndices 1 4194305 1024 4194304 0 1 = .ok [0] ∧
    ¬ DisjointCover 1 1 4194305 1024 ∧
    workerIndices 18446744073709551615 1 2 0 0 18446744073709551615 = .ok [] ∧
    workerIndices 18446744073709551615 1 2 0 1 18446744073709551615 = .ok [] ∧
    ¬ DisjointCover 18446744073709551615 18446744073709551615 1 2 := by
  refine ⟨by decide, rfl, rfl, ?_, rfl, rfl, ?_⟩
  · rintro ⟨-, hdisj, -⟩
    have h := hdisj 0 0 4194304 0 [0] [0] 0 (by decide) (by decide) (by decide) (by decide)
      rfl rfl (List.mem_singleton.mpr rfl) (List.mem_singleton.mpr rfl)
    exact absurd (congrArg Prod.fst h) (by decide)
  · rintro ⟨-, -, hcover⟩
    obtain ⟨b, t, l, hb, ht, hl, hmem⟩ := (hcover 0).mp (by decide)
    have hb0 : b = 0 := by omega
    subst hb0
    have h0 : workerIndices 18446744073709551615 1 2 0 0 18446744073709551615 = .ok [] := rfl
    have h1 : workerIndices 18446744073709551615 1 2 0 1 18446744073709551615 = .ok [] := rfl
    have ht01 : t = 0 ∨ t = 1 := by omega
    rcases ht01 with rfl | rfl
    · rw [h0] at hl
      injection hl with hl
      rw [← hl] at hmem
      cases hmem
    · rw [h1] at hl
      injection hl with hl
      rw [← hl] at hmem
      cases hmem

/-! ## No access outside the buffer -/

theorem Safe.bind {σ τ : Type} {P : σ → Prop} {Q : τ → Prop} {r : Except Fault σ}
    {f : σ → Except Fault τ} (hr : Safe P r) (hf : ∀ s, P s → Safe Q (f s)) :
    Safe Q (r >>= f) := by
  cases r with
  | error e => exact hr
  | ok s => exact hf s hr

theorem Safe.ne_outOfBounds {σ : Type} {P : σ → Prop} {r : Except Fault σ} (hr : Safe P r) :
    r ≠ .error .outOfBounds := by
  intro h
  rw [h] at hr
  exact hr rfl

theorem strideLoop_safe {σ : Type} (P : σ → Prop) (body : Nat → σ → Except Fault σ)
    (e st : Nat) (hbody : ∀ i s, i < e → P s → Safe P (body i s)) (fuel i : Nat) (s : σ)
    (hs : P s) : Safe P (strideLoop body e st fuel i s) := by
  induction fuel generalizing i s with
  | zero =>
    unfold strideLoop
    split
    · intro h
      cases h
    · exact hs
  | succ fuel ih =>
    unfold strideLoop
    split
    · rename_i hlt
      exact Safe.bind (hbody i s hlt hs) (fun s1 hs1 => ih _ s1 hs1)
    · exact hs

theorem countLoop_safe {σ : Type} (P : σ → Prop) (body : Nat → σ → Except Fault σ)
    (hbody : ∀ i s, P s → Safe P (body i s)) (n i : Nat) (s : σ) (hs : P s) :
    Safe P (countLoop body n i s) := by
  induction n generalizing i s with
  | zero => exact hs
  | succ n ih =>
    unfold countLoop
    exact Safe.bind (hbody i s hs) (fun s1 hs1 => ih _ s1 hs1)

theorem loopBody_safe (ERT_FLOP : Nat) (alpha : ℚ) (i L : Nat) (A : List ℚ) (hi : i < L)
    (hA : A.length = L) : Safe (fun B : List ℚ => B.length = L) (loopBody ERT_FLOP alpha i A) := by
  rw [loopBody_eq_pointUpdate, pointUpdate_of_lt _ (by omega)]
  show (applyOn _ _ A).length = L
  rw [length_applyOn, hA]

theorem clamp_bounds (N : Nat) (p : Partition) :
    (clamp N p).start_idx ≤ N ∧ (clamp N p).end_idx ≤ N := by
  unfold clamp
  by_cases hs : p.start_idx > N <;> by_cases he : p.end_idx > N <;> simp [hs, he] <;> omega

theorem partition_bounds {G T b t N : Nat} {p : Partition} (h : partition G T b t N = .ok p) :
    p.start_idx ≤ N ∧ p.end_idx ≤ N := by
  unfold partition at h
  cases hr : partitionRaw G T b t N with
  | error e =>
    rw [hr] at h
    cases h
  | ok q =>
    rw [hr] at h
    injection h with h
    rw [← h]
    exact clamp_bounds N q

theorem partition_safe (G T b t N : Nat) :
    Safe (fun p : Partition => p.start_idx ≤ N ∧ p.end_idx ≤ N) (partition G T b t N) := by
  cases h : partition G T b t N with
  | ok p => exact partition_bounds h
  | error e =>
    unfold partition partitionRaw at h
    by_cases hW : (G * T) % U32 = 0
    · simp [hW, Except.map] at h
      rw [← h]
      intro h'
      cases h'
    · simp [hW, Except.map] at h

theorem blockStrideState_safe (ERT_FLOP fuel G T b t ntrials N : Nat) (A : List ℚ)
    (hA : A.length = N) :
    Safe (fun s : List ℚ × ℚ => s.1.length = N)
      (blockStrideState ERT_FLOP fuel G T b t ntrials N A) := by
  unfold blockStrideState
  refine Safe.bind (partition_safe G T b t N) ?_
  intro p hp
  refine countLoop_safe _ _ ?_ ntrials 0 (A, 1 / 2) hA
  intro _ s hs
  unfold strideTrial
  refine Safe.bind (Q := fun s : List ℚ × ℚ => s.1.length = N)
    (strideLoop_safe (fun B : List ℚ => B.length = N) _ _ _ ?_ fuel _ s.1 hs) ?_
  · intro i B hi hB
    exact loopBody_safe ERT_FLOP s.2 i N B (by omega) hB
  · intro B hB
    exact hB

theorem block_stride_safe (ERT_FLOP fuel G T b t ntrials N : Nat) (A : List ℚ)
    (hA : A.length = N) :
    block_stride ERT_FLOP fuel G T b t ntrials N A ≠ .error .outOfBounds := by
  have h := blockStrideState_safe ERT_FLOP fuel G T b t ntrials N A hA
  unfold block_stride
  cases hr : blockStrideState ERT_FLOP fuel G T b t ntrials N A with
  | ok s =>
    intro h'
    cases h'
  | error e =>
    rw [hr] at h
    intro h'
    injection h' with h'
    exact h h'

theorem workerIndices_lt {fuel G T b t N : Nat} {l : List Nat}
    (h : workerIndices fuel G T b t N = .ok l) : ∀ i ∈ l, i < N := by
  unfold workerIndices at h
  cases hp : partition G T b t N with
  | error e =>
    rw [hp] at h
    cases h
  | ok p =>
    rw [hp, ok_bind] at h
    have hend := (partition_bounds hp).2
    have hsafe := strideLoop_safe (fun visited : List Nat => ∀ i ∈ visited, i < p.end_idx)
      (fun i visited => .ok (visited ++ [i])) p.end_idx p.stride_idx
      (fun i visited hi hv j hj => by
        rcases List.mem_append.mp hj with hj | hj
        · exact hv j hj
        · rw [List.mem_singleton.mp hj]
          exact hi)
      fuel p.start_idx [] (fun i hi => by cases hi)
    unfold sweepIndices at h
    rw [h] at hsafe
    exact fun i hi => Nat.lt_of_lt_of_le (hsafe i hi) hend

theorem initialize_buffer_eq (N : Nat) (A : List ℚ) (v : ℚ) (hA : N ≤ A.length) :
    initialize_buffer N A v = .ok (applyOn (fun j => j < N) (fun _ => v) A) := by
  unfold initialize_buffer
  have : (fun i (A : List ℚ) => store A i v) = fun i A => pointUpdate (fun _ => v) i A := by
    funext i A
    exact store_eq_pointUpdate v i A
  rw [this, countLoop_eq_foldlM, foldlM_pointUpdate _ _ A (List.nodup_range' 0 N 1)
    (fun i hi => Nat.lt_of_lt_of_le (mem_range'_one.mp hi) hA)]
  congr 1
  exact applyOn_congr _ _ (fun i _ => mem_range'_one)

theorem block_stride_noWrap {ERT_FLOP fuel G T b t ntrials N : Nat} {A : List ℚ}
    (hG : 1 ≤ G) (hT : 1 ≤ T) (hnw : NoWrap N G T) (hb : b < G) (ht : t < T)
    (hfuel : N ≤ fuel) (hA : N ≤ A.length) :
    block_stride ERT_FLOP fuel G T b t ntrials N A
      = .ok (applyOn (fun i => i < N ∧ i % (G * T) = b * T + t)
          (elemTrials ERT_FLOP ntrials (1 / 2)) A) := by
  obtain ⟨e1, e2, hpos, hw, hsum⟩ := noWrap_facts hG hT hnw hb ht
  have h := @block_stride_eq ERT_FLOP fuel G T b t ntrials N A (by rw [e1]; exact hpos)
    (by rw [e1, e2]; exact hsum) hfuel hA
  rw [e1, e2] at h
  rw [h]
  congr 1
  exact applyOn_congr _ _ (fun i _ => onStride_clampStart_iff hw)

theorem clampedOrdered_noWrap {N G T b t : Nat} (hG : 1 ≤ G) (hT : 1 ≤ T) (hnw : NoWrap N G T)
    (hb : b < G) (ht : t < T) : ClampedOrdered N G T b t := by
  obtain ⟨e1, e2, hpos, hw, hsum⟩ := noWrap_facts hG hT hnw hb ht
  have h := @partition_eq G T b t N (by rw [e1]; exact hpos) (by rw [e1, e2]; exact hsum)
  exact ⟨_, h, clampStart_le _ _, Nat.le_refl _⟩

/-- C2 (amended): for a buffer of length `N` and every launch, the clamps leave
`start_idx <= N` and `end_idx <= N`, every index visited by a sweep of
`block_stride` is below `N`, and `block_stride` never indexes outside the
buffer; `kernel` and the buffer fill return without fault; and when nothing wraps
(`G * T < 2^32`, `N + 2 * G * T <= 2^64`) also `start_idx <= end_idx` holds and
`block_stride` returns without any fault once `fuel >= N`. -/
theorem C2_no_out_of_bounds (sizeofT ERT_FLOP fuel G T b t ntrials N : Nat) (A : List ℚ) (v : ℚ)
    (hA : A.length = N) :
    (∀ p, partition G T b t N = .ok p → p.start_idx ≤ N ∧ p.end_idx ≤ N) ∧
    (∀ l, workerIndices fuel G T b t N = .ok l → ∀ i ∈ l, i < N) ∧
    block_stride ERT_FLOP fuel G T b t ntrials N A ≠ .error .outOfBounds ∧
    (∃ B, (kernel sizeofT ERT_FLOP N ntrials A).2 = .ok B) ∧
    (∃ B, initialize_buffer N A v = .ok B) ∧
    (1 ≤ G → 1 ≤ T → b < G → t < T → NoWrap N G T → N ≤ fuel →
      ClampedOrdered N G T b t ∧ ∃ B, block_stride ERT_FLOP fuel G T b t ntrials N A = .ok B) := by
  refine ⟨fun p hp => partition_bounds hp, fun l hl => workerIndices_lt hl,
    block_stride_safe _ _ _ _ _ _ _ _ A hA,
    ⟨_, kernel_eq sizeofT ERT_FLOP N ntrials A (by omega)⟩,
    ⟨_, initialize_buffer_eq N A v (by omega)⟩, ?_⟩
  intro hG hT hb ht hnw hfuel
  exact ⟨clampedOrdered_noWrap hG hT hnw hb ht,
    _, block_stride_noWrap hG hT hnw hb ht hfuel (by omega)⟩

/-- Witness for C2: worker `(1, 1)` of a 2 x 2 launch on a buffer of three elements. -/
theorem C2_no_out_of_bounds_witness :
    block_stride 4 3 2 2 1 1 2 3 [2, 1, 0] ≠ .error .outOfBounds ∧
    ClampedOrdered 3 2 2 1 1 ∧ ∃ B, block_stride 4 3 2 2 1 1 2 3 [2, 1, 0] = .ok B :=
  have h := C2_no_out_of_bounds 8 4 3 2 2 1 1 2 3 [2, 1, 0] 0 rfl
  ⟨h.2.2.1, h.2.2.2.2.2 (by decide) (by decide) (by decide) (by decide) ⟨by decide, by decide⟩
    (by decide)⟩

/-- Counterexample to C2 as stated.  For `N = 2^64 - 3`, `G = 1`, `T = 3` and
thread 2 the sum of line 40 wraps, giving `start_idx = 2` and `end_idx = 1`.  For
`G = 4194304`, `T = 1024` the 32-bit product of line 35 is 0 and line 36 divides
by zero, so no clamped indices exist. -/
theorem C2_counterexample :
    (1 ≤ 1 ∧ 1 ≤ 3 ∧ 0 < 1 ∧ 2 < 3 ∧ 18446744073709551613 < U64) ∧
    partition 1 3 0 2 18446744073709551613
      = .ok ⟨3, 6148914691236517205, 0, 2, 1, 3⟩ ∧
    ¬ ClampedOrdered 18446744073709551613 1 3 0 2 ∧
    partition 4194304 1024 0 0 4 = .error .divByZero ∧
    ¬ ClampedOrdered 4 4194304 1024 0 0 := by
  refine ⟨by decide, rfl, ?_, rfl, ?_⟩
  · rintro ⟨p, hp, h1, -⟩
    have h : partition 1 3 0 2 18446744073709551613
        = .ok ⟨3, 6148914691236517205, 0, 2, 1, 3⟩ := rfl
    rw [h] at hp
    injection hp with hp
    rw [← hp] at h1
    exact absurd h1 (by decide)
  · rintro ⟨p, hp, -⟩
    have h : partition 4194304 1024 0 0 4 = .error .divByZero := rfl
    rw [h] at hp
    cases hp

theorem getElem?_applyOn_of_lt (S : Nat → Prop) [DecidablePred S] (f : ℚ → ℚ) (A : List ℚ)
    {i : Nat} (hS : S i) : (applyOn S f A)[i]? = (A[i]?).map f := by
  rw [getElem?_applyOn]
  cases A[i]? <;> simp [hS]

theorem getElem?_applyOn_of_not (S : Nat → Prop) [DecidablePred S] (f : ℚ → ℚ) (A : List ℚ)
    {i : Nat} (hS : ¬ S i) : (applyOn S f A)[i]? = A[i]? := by
  rw [getElem?_applyOn]
  cases A[i]? <;> simp [hS]

/-- C3: for a buffer of length at least `N`, the fill returns a buffer of the same
length whose elements `0 .. N - 1` all equal `v`, whatever the buffer held before;
for `N = 0` the buffer is returned unchanged. -/
theorem C3_initialize_fills (N : Nat) (A : List ℚ) (v : ℚ) (hA : N ≤ A.length) :
    (∃ B, initialize_buffer N A v = .ok B ∧ B.length = A.length ∧
      ∀ i, i < N → B[i]? = some v) ∧
    initialize_buffer 0 A v = .ok A := by
  refine ⟨⟨_, initialize_buffer_eq N A v hA, length_applyOn _ _ _, ?_⟩, rfl⟩
  intro i hi
  rw [getElem?_applyOn_of_lt (fun j => j < N) _ _ hi, List.getElem?_eq_getElem (by omega)]
  rfl

/-- Witness for C3: filling the first two elements of a three-element buffer. -/
theorem C3_initialize_fills_witness :
    initialize_buffer 2 [1, 2, 3] 7 = .ok [7, 7, 3] ∧
    ((∃ B, initialize_buffer 2 [1, 2, 3] 7 = .ok B ∧ B.length = [(1 : ℚ), 2, 3].length ∧
      ∀ i, i < 2 → B[i]? = some 7) ∧
    initialize_buffer 0 [1, 2, 3] 7 = .ok [1, 2, 3]) :=
  ⟨rfl, C3_initialize_fills 2 [1, 2, 3] 7 (by decide)⟩

/-- C4: `kernel` and `gpuKernel` report `bytes_per_elem = sizeof(T)` (4 for single,
8 for double precision) and `mem_accesses_per_elem = 2`, whatever the size, the
trial count, `ERT_FLOP`, the launch and the buffer are. -/
theorem C4_report_constant (sizeofT ERT_FLOP fuel G T nsize ntrials : Nat)
    (sched : List (Nat × Nat)) (A : List ℚ) :
    (kernel sizeofT ERT_FLOP nsize ntrials A).1 = ⟨sizeofT, 2⟩ ∧
    (gpuKernel sizeofT ERT_FLOP fuel G T sched nsize ntrials A).1 = ⟨sizeofT, 2⟩ ∧
    (kernel Precision.single.sizeof ERT_FLOP nsize ntrials A).1 = ⟨4, 2⟩ ∧
    (kernel Precision.double.sizeof ERT_FLOP nsize ntrials A).1 = ⟨8, 2⟩ ∧
    (gpuKernel Precision.single.sizeof ERT_FLOP fuel G T sched nsize ntrials A).1 = ⟨4, 2⟩ ∧
    (gpuKernel Precision.double.sizeof ERT_FLOP fuel G T sched nsize ntrials A).1 = ⟨8, 2⟩ :=
  ⟨rfl, rfl, rfl, rfl, rfl, rfl⟩

theorem bodyStmts_one : bodyStmts 1 = [Stmt.kernel1] := by decide

theorem updElem_one (alpha x : ℚ) : updElem 1 alpha x = x + alpha := by
  unfold updElem
  rw [bodyStmts_one]
  rfl

/-- C5: with `ERT_FLOP = 1` and one trial, `kernel` returns a buffer of the same
length in which every element below `N` is its old value plus `1/2`. -/
theorem C5_depth_one_single_trial (sizeofT N : Nat) (A : List ℚ) (hA : N ≤ A.length) :
    ∃ B, (kernel sizeofT 1 N 1 A).2 = .ok B ∧ B.length = A.length ∧
      ∀ i, i < N → B[i]? = (A[i]?).map (fun x => x + 1 / 2) := by
  refine ⟨_, kernel_eq sizeofT 1 N 1 A hA, length_applyOn _ _ _, ?_⟩
  intro i hi
  have hf : elemTrials 1 1 (1 / 2) = fun x => x + 1 / 2 := by
    funext x
    exact updElem_one (1 / 2) x
  rw [getElem?_applyOn_of_lt (fun j => j < N) _ _ hi, hf]

/-- Witness for C5: `N = 1`, one trial, depth 1 turns `[3]` into `[3 + 1/2]`. -/
theorem C5_depth_one_single_trial_witness :
    (kernel 8 1 1 1 [3]).2 = .ok [3 + 1 / 2] ∧
    ∃ B, (kernel 8 1 1 1 [3]).2 = .ok B ∧ B.length = [(3 : ℚ)].length ∧
      ∀ i, i < 1 → B[i]? = ([(3 : ℚ)][i]?).map (fun x => x + 1 / 2) :=
  ⟨by simp [kernel, kernelState, countLoop, kernelTrial, loopBody, bodyStmts_one, Stmt.exec,
      load, store, KERNEL1, Except.map, ok_bind, decay],
    C5_depth_one_single_trial 8 1 [3] (by decide)⟩

/-! ## Base operation and repetition count -/

set_option maxRecDepth 20000 in
theorem bodyStmts_pow (k : Nat) (hk1 : 1 ≤ k) (hk : k ≤ 10) :
    bodyStmts (2 ^ k) = List.replicate (2 ^ k / 2) Stmt.kernel2 := by
  interval_cases k <;> rfl

set_option maxRecDepth 20000 in
theorem activeBlocks_pow (k : Nat) (hk : k ≤ 10) : (activeBlocks (2 ^ k)).length = 1 := by
  interval_cases k <;> rfl

/-- C6 (amended): in a build of depth `2^k`, `1 <= k <= 10`, every statement of the
loop body is `KERNEL2(beta, A[i], alpha)`, whose effect is
`beta := beta * A[i] + alpha`: `beta` is multiplied by the element value and the
coefficient `alpha` is added.  For depth 1 the body is the single statement
`KERNEL1(beta, A[i], alpha)`, whose effect is `beta := A[i] + alpha`. -/
theorem C6_base_operation (k : Nat) (hk1 : 1 ≤ k) (hk : k ≤ 10) (s : Stmt)
    (hs : s ∈ bodyStmts (2 ^ k)) (A : List ℚ) (i : Nat) (alpha beta : ℚ) (hi : i < A.length) :
    s = Stmt.kernel2 ∧
    s.exec A i alpha beta = .ok (beta * A[i] + alpha) ∧
    bodyStmts 1 = [Stmt.kernel1] ∧
    Stmt.kernel1.exec A i alpha beta = .ok (A[i] + alpha) := by
  rw [bodyStmts_pow k hk1 hk] at hs
  have hs2 : s = Stmt.kernel2 := List.eq_of_mem_replicate hs
  subst hs2
  exact ⟨rfl, exec_of_lt hi alpha _ beta, bodyStmts_one, exec_of_lt hi alpha _ beta⟩

/-- Witness for C6: depth 2 on the buffer `[2]` with `alpha = 1/2`, `beta = 4/5`. -/
theorem C6_base_operation_witness :
    Stmt.kernel2 = Stmt.kernel2 ∧
    Stmt.kernel2.exec [2] 0 (1 / 2) (4 / 5) = .ok (4 / 5 * ([2] : List ℚ)[0] + 1 / 2) ∧
    bodyStmts 1 = [Stmt.kernel1] ∧
    Stmt.kernel1.exec [2] 0 (1 / 2) (4 / 5) = .ok (([2] : List ℚ)[0] + 1 / 2) :=
  C6_base_operation 1 (by decide) (by decide) Stmt.kernel2 (by decide) [2] 0 (1 / 2) (4 / 5)
    (by decide)

/-- Counterexample to C6 as stated: in the depth-2 build the statement run on
`A[i] = 2` with `alpha = 1/2` and `beta = 4/5` yields `4/5 * 2 + 1/2 = 21/10`, not
the specification's `4/5 * 1/2 + 2 = 12/5`; so `kernel` turns `[2]` into `[21/10]`. -/
theorem C6_counterexample :
    Stmt.kernel2 ∈ bodyStmts 2 ∧
    Stmt.kernel2.exec [2] 0 (1 / 2) (4 / 5) = .ok (21 / 10) ∧
    specBaseOp 2 (1 / 2) (4 / 5) = 12 / 5 ∧
    Stmt.kernel2.exec [2] 0 (1 / 2) (4 / 5) ≠ .ok (specBaseOp 2 (1 / 2) (4 / 5)) ∧
    (kernel 8 2 1 1 [2]).2 = .ok [21 / 10] := by
  have h1 : Stmt.kernel2.exec [2] 0 (1 / 2) (4 / 5) = .ok (21 / 10) := by
    rw [exec_of_lt (by decide : 0 < [(2 : ℚ)].length)]
    simp only [Stmt.eval, KERNEL2, List.get_eq_getElem, List.getElem_cons_zero]
    norm_num
  have h2 : specBaseOp 2 (1 / 2) (4 / 5) = 12 / 5 := by
    unfold specBaseOp
    norm_num
  refine ⟨by decide, h1, h2, ?_, ?_⟩
  · rw [h1, h2]
    intro h
    injection h with h
    norm_num at h
  · rw [kernel_eq 8 2 1 1 [2] (by decide)]
    have hb : bodyStmts 2 = [Stmt.kernel2] := by decide
    simp only [applyOn, List.mapIdx_cons, List.mapIdx_nil, elemTrials, updElem, hb,
      List.foldl_cons, List.foldl_nil, Stmt.eval, KERNEL2]
    norm_num

/-- C7 (amended): for each depth `d = 2^k`, `k <= 10`, exactly one of the eleven
conditional blocks is active; the loop body is the single `KERNEL1` for `d = 1`
and `d / 2` copies of `KERNEL2` for `d >= 2`. -/
theorem C7_repetition_count (k : Nat) (hk : k ≤ 10) :
    (activeBlocks (2 ^ k)).length = 1 ∧
    bodyStmts (2 ^ k)
      = (if k = 0 then [Stmt.kernel1] else List.replicate (2 ^ k / 2) Stmt.kernel2) ∧
    (bodyStmts (2 ^ k)).length = (if k = 0 then 1 else 2 ^ k / 2) := by
  have h : bodyStmts (2 ^ k)
      = (if k = 0 then [Stmt.kernel1] else List.replicate (2 ^ k / 2) Stmt.kernel2) := by
    by_cases h0 : k = 0
    · subst h0
      exact bodyStmts_one
    · rw [if_neg h0]
      exact bodyStmts_pow k (by omega) hk
  refine ⟨activeBlocks_pow k hk, h, ?_⟩
  rw [h]
  by_cases h0 : k = 0
  · simp [h0]
  · simp [h0]

/-- Witness for C7: depth 4 runs two copies of `KERNEL2`. -/
theorem C7_repetition_count_witness :
    bodyStmts 4 = [Stmt.kernel2, Stmt.kernel2] ∧
    ((activeBlocks (2 ^ 2)).length = 1 ∧
    bodyStmts (2 ^ 2)
      = (if 2 = 0 then [Stmt.kernel1] else List.replicate (2 ^ 2 / 2) Stmt.kernel2) ∧
    (bodyStmts (2 ^ 2)).length = (if 2 = 0 then 1 else 2 ^ 2 / 2)) :=
  ⟨by decide, C7_repetition_count 2 (by decide)⟩

/-- Counterexample to C7 as stated: depth 2 runs one copy of `KERNEL2` and depth
1024 runs 512, not 2 and 1024. -/
theorem C7_counterexample :
    bodyStmts 2 = [Stmt.kernel2] ∧ (bodyStmts 2).length = 1 ∧
    (bodyStmts 1024).length = 512 ∧ bodyStmts 2 ≠ specBodyStmts 2 := by
  refine ⟨by decide, by decide, ?_, by decide⟩
  have h := bodyStmts_pow 10 (by decide) (by decide)
  have e : (2 : Nat) ^ 10 = 1024 := by decide
  rw [e] at h
  rw [h, List.length_replicate]

/-! ## Parallel kernel against sequential kernel -/

theorem mem_grid {G T b t : Nat} : (b, t) ∈ grid G T ↔ b < G ∧ t < T := by
  have h : grid G T = List.range G ×ˢ List.range T := rfl
  rw [h, List.mem_product, List.mem_range, List.mem_range]

theorem nodup_grid (G T : Nat) : (grid G T).Nodup := by
  have h : grid G T = List.range G ×ˢ List.range T := rfl
  rw [h]
  exact List.Nodup.product (List.nodup_range G) (List.nodup_range T)

theorem runWorkers_noWrap {ERT_FLOP fuel G T ntrials N : Nat} (hG : 1 ≤ G) (hT : 1 ≤ T)
    (hnw : NoWrap N G T) (hfuel : N ≤ fuel) (sched : List (Nat × Nat)) (hnd : sched.Nodup)
    (hmem : ∀ w ∈ sched, w.1 < G ∧ w.2 < T) (A : List ℚ) (hA : N ≤ A.length) :
    runWorkers ERT_FLOP fuel G T ntrials N sched A
      = .ok (applyOn (servedBy G T N sched) (elemTrials ERT_FLOP ntrials (1 / 2)) A) := by
  unfold runWorkers
  induction sched generalizing A with
  | nil =>
    rw [List.foldlM_nil, applyOn_false]
    · rfl
    · rintro i - ⟨-, w, hw, -⟩
      cases hw
  | cons w rest ih =>
    obtain ⟨hw1, hw2⟩ := hmem w (List.mem_cons_self _ _)
    have hnd' := List.nodup_cons.mp hnd
    rw [List.foldlM_cons, block_stride_noWrap hG hT hnw hw1 hw2 hfuel hA, ok_bind,
      ih hnd'.2 (fun v hv => hmem v (List.mem_cons_of_mem _ hv)) _
        (by rw [length_applyOn]; exact hA)]
    congr 1
    rw [applyOn_union]
    · apply applyOn_congr
      intro i _
      unfold servedBy
      constructor
      · rintro (⟨h1, h2⟩ | ⟨h1, v, hv, h2⟩)
        · exact ⟨h1, w, List.mem_cons_self _ _, h2⟩
        · exact ⟨h1, v, List.mem_cons_of_mem _ hv, h2⟩
      · rintro ⟨h1, v, hv, h2⟩
        rcases List.mem_cons.mp hv with rfl | hv
        · exact Or.inl ⟨h1, h2⟩
        · exact Or.inr ⟨h1, v, hv, h2⟩
    · rintro i ⟨-, h2⟩ ⟨-, v, hv, h3⟩
      obtain ⟨hv1, hv2⟩ := hmem v (List.mem_cons_of_mem _ hv)
      obtain ⟨e1, e2⟩ := worker_inj hw2 hv2 (h2.symm.trans h3)
      have : w = v := Prod.ext e1 e2
      rw [this] at hnd'
      exact hnd'.1 hv

theorem servedBy_grid {G T N : Nat} (hG : 1 ≤ G) (hT : 1 ≤ T) {sched : List (Nat × Nat)}
    (hp : sched.Perm (grid G T)) (i : Nat) : servedBy G T N sched i ↔ i < N := by
  unfold servedBy
  constructor
  · exact fun h => h.1
  · intro hi
    refine ⟨hi, (i % (G * T) / T, i % (G * T) % T), ?_, ?_⟩
    · rw [hp.mem_iff, mem_grid]
      have hlt : i % (G * T) < G * T := Nat.mod_lt _ (Nat.mul_pos hG hT)
      exact ⟨Nat.div_lt_of_lt_mul (by rw [Nat.mul_comm T G]; exact hlt), Nat.mod_lt _ (by omega)⟩
    · show i % (G * T) = i % (G * T) / T * T + i % (G * T) % T
      rw [Nat.mul_comm (i % (G * T) / T) T]
      exact (Nat.div_add_mod _ _).symm

/-- C8 (amended): when nothing wraps (`G * T < 2^32`, `N + 2 * G * T <= 2^64`), for
every `ERT_FLOP`, trial count and buffer of length at least `N`, running
`block_stride` for all `G * T` workers, each to completion and in any order,
returns the same buffer as `kernel` on the same initial buffer. -/
theorem C8_parallel_matches_sequential (sizeofT ERT_FLOP fuel N ntrials G T : Nat) (A : List ℚ)
    (hG : 1 ≤ G) (hT : 1 ≤ T) (hnw : NoWrap N G T) (hfuel : N ≤ fuel) (hA : N ≤ A.length) :
    ParallelMatchesSequential sizeofT ERT_FLOP fuel N ntrials G T A := by
  intro sched hp
  refine ⟨_, kernel_eq sizeofT ERT_FLOP N ntrials A hA, ?_⟩
  show runWorkers ERT_FLOP fuel G T ntrials N sched A = _
  rw [runWorkers_noWrap hG hT hnw hfuel sched (hp.nodup_iff.mpr (nodup_grid G T))
    (fun w hw => mem_grid.mp (hp.mem_iff.mp hw)) A hA]
  congr 1
  exact applyOn_congr _ _ (fun i _ => servedBy_grid hG hT hp i)

/-- Witness for C8: a 2 x 2 launch, depth 4, two trials on three elements, with
the workers in launch order and in reverse order. -/
theorem C8_parallel_matches_sequential_witness :
    ParallelMatchesSequential 8 4 3 3 2 2 2 [2, 1, 0] ∧
    (gpuKernel 8 4 3 2 2 (grid 2 2) 3 2 [2, 1, 0]).2 = (kernel 8 4 3 2 [2, 1, 0]).2 ∧
    (gpuKernel 8 4 3 2 2 (grid 2 2).reverse 3 2 [2, 1, 0]).2 = (kernel 8 4 3 2 [2, 1, 0]).2 :=
  have h := C8_parallel_matches_sequential 8 4 3 3 2 2 2 [2, 1, 0] (by decide) (by decide)
    ⟨by decide, by decide⟩ (by decide) (by decide)
  ⟨h,
    (by
      obtain ⟨B, h1, h2⟩ := h (grid 2 2) (List.Perm.refl _)
      rw [h1, h2]),
    (by
      obtain ⟨B, h1, h2⟩ := h (grid 2 2).reverse (List.reverse_perm _)
      rw [h1, h2])⟩

theorem applyOn_singleton (S : Nat → Prop) [DecidablePred S] (f : ℚ → ℚ) (x : ℚ) :
    applyOn S f [x] = [if S 0 then f x else x] := by
  simp [applyOn, List.mapIdx_cons]

theorem wrapped_worker (b t : Nat) (x : ℚ) (ht : t < 1024) :
    block_stride 1 1 4194305 1024 b t 1 1 [x]
      = .ok [if (b * 1024) % U32 + t = 0 then x + 1 / 2 else x] := by
  have hW : (4194305 * 1024) % U32 = 1024 := by decide
  have hbo : (b * 1024) % U32 < U32 := Nat.mod_lt _ (by decide)
  have hU : U64 = 2 ^ 64 := rfl
  have hU32 : U32 = 2 ^ 32 := rfl
  have h := @block_stride_eq 1 1 4194305 1024 b t 1 1 [x] (by rw [hW]; decide)
    (by rw [hW]; omega) (Nat.le_refl _) (Nat.le_refl _)
  rw [h, hW, applyOn_singleton]
  have hf : elemTrials 1 1 (1 / 2) x = x + 1 / 2 := updElem_one (1 / 2) x
  rw [hf]
  congr 2
  generalize (b * 1024) % U32 + t = s
  unfold onStride clampStart
  by_cases hs : s = 0
  · subst hs
    simp
  · have h1 : ¬ (if s > 1 then 1 else s) ≤ 0 := by
      split <;> omega
    simp [hs, h1]

theorem wrapped_idle (rest : List (Nat × Nat))
    (hrest : ∀ w ∈ rest, w.2 < 1024 ∧ (w.1 * 1024) % U32 + w.2 ≠ 0) (x : ℚ) :
    runWorkers 1 1 4194305 1024 1 1 rest [x] = .ok [x] := by
  unfold runWorkers
  induction rest with
  | nil => rfl
  | cons w rest ih =>
    obtain ⟨h1, h2⟩ := hrest w (List.mem_cons_self _ _)
    rw [List.foldlM_cons, wrapped_worker w.1 w.2 x h1, if_neg h2, ok_bind]
    exact ih (fun v hv => hrest v (List.mem_cons_of_mem _ hv))

theorem wrapped_run (g : List (Nat × Nat)) (hnd : g.Nodup)
    (hmem : ∀ b t, (b, t) ∈ g ↔ b < 4194305 ∧ t < 1024) :
    ∃ sched : List (Nat × Nat), sched.Perm g ∧
      runWorkers 1 1 4194305 1024 1 1 sched [0] = .ok [1] := by
  have hU32 : U32 = 2 ^ 32 := rfl
  have hm0 : ((0 : Nat), (0 : Nat)) ∈ g := (hmem 0 0).mpr ⟨by decide, by decide⟩
  obtain ⟨r1, hp1⟩ : ∃ r, g.Perm ((0, 0) :: r) := ⟨_, List.perm_cons_erase hm0⟩
  have hnd1 : (((0 : Nat), (0 : Nat)) :: r1).Nodup := hp1.nodup_iff.mp hnd
  have hm1 : ((4194304 : Nat), (0 : Nat)) ∈ r1 := by
    have h := hp1.mem_iff.mp ((hmem 4194304 0).mpr ⟨by decide, by decide⟩)
    rcases List.mem_cons.mp h with h | h
    · exact absurd (congrArg Prod.fst h) (by decide)
    · exact h
  obtain ⟨r2, hp2⟩ : ∃ r, r1.Perm ((4194304, 0) :: r) := ⟨_, List.perm_cons_erase hm1⟩
  have hnd2 : (((4194304 : Nat), (0 : Nat)) :: r2).Nodup :=
    hp2.nodup_iff.mp (List.nodup_cons.mp hnd1).2
  refine ⟨(0, 0) :: (4194304, 0) :: r2, (hp1.trans (hp2.cons _)).symm, ?_⟩
  unfold runWorkers
  rw [List.foldlM_cons, wrapped_worker 0 0 0 (by decide), if_pos (by decide), ok_bind,
    List.foldlM_cons, wrapped_worker 4194304 0 _ (by decide), if_pos (by decide), ok_bind]
  have hone : ((0 : ℚ) + 1 / 2 + 1 / 2) = 1 := by norm_num
  rw [hone]
  refine wrapped_idle _ ?_ 1
  intro w hw
  have hwr1 : w ∈ r1 := hp2.mem_iff.mpr (List.mem_cons_of_mem _ hw)
  have hwg : w ∈ g := hp1.mem_iff.mpr (List.mem_cons_of_mem _ hwr1)
  have hne1 : w ≠ (4194304, 0) := fun e => (List.nodup_cons.mp hnd2).1 (e ▸ hw)
  have hne0 : w ≠ (0, 0) := fun e => (List.nodup_cons.mp hnd1).1 (e ▸ hwr1)
  obtain ⟨b, t⟩ := w
  obtain ⟨hb, ht⟩ := (hmem b t).mp hwg
  refine ⟨ht, ?_⟩
  show (b * 1024) % U32 + t ≠ 0
  intro h0
  have h0' : b * 1024 % 4294967296 + t = 0 := h0
  have hb0 : b ≠ 0 ∨ t ≠ 0 := by
    by_contra hc
    have : b = 0 ∧ t = 0 := by omega
    exact hne0 (by rw [this.1, this.2])
  have hb1 : b ≠ 4194304 ∨ t ≠ 0 := by
    by_contra hc
    have : b = 4194304 ∧ t = 0 := by omega
    exact hne1 (by rw [this.1, this.2])
  omega

/-- Counterexample to C8 as stated: with `G = 4194305`, `T = 1024` the 32-bit
worker count wraps to 1024 and workers `(0, 0)` and `(4194304, 0)` both own
index 0.  For `N = 1`, one trial, depth 1 and the buffer `[0]`, `kernel` returns
`[1/2]`, while the launch, run with these two workers first, returns `[1]`. -/
theorem C8_counterexample :
    (1 ≤ 4194305 ∧ 1 ≤ 1024) ∧
    (kernel 8 1 1 1 [0]).2 = .ok [1 / 2] ∧
    (∃ sched : List (Nat × Nat), sched.Perm (grid 4194305 1024) ∧
      (gpuKernel 8 1 1 4194305 1024 sched 1 1 [0]).2 = .ok [1]) ∧
    ¬ ParallelMatchesSequential 8 1 1 1 1 4194305 1024 [0] := by
  have hk : (kernel 8 1 1 1 [0]).2 = .ok [1 / 2] := by
    rw [kernel_eq 8 1 1 1 [0] (by decide), applyOn_singleton, if_pos (by decide)]
    have hf : elemTrials 1 1 (1 / 2) 0 = 0 + 1 / 2 := updElem_one (1 / 2) 0
    rw [hf, zero_add]
  obtain ⟨sched, hperm, hrun⟩ :=
    wrapped_run (grid 4194305 1024) (nodup_grid _ _) (fun _ _ => mem_grid)
  refine ⟨by decide, hk, ⟨sched, hperm, hrun⟩, ?_⟩
  intro h
  obtain ⟨B, h1, h2⟩ := h sched hperm
  have h3 : runWorkers 1 1 4194305 1024 1 1 sched [0] = .ok B := h2
  rw [hk] at h1
  rw [hrun] at h3
  injection h1 with h1
  injection h3 with h3
  rw [← h1] at h3
  have : (1 : ℚ) = 1 / 2 := by
    injection h3
  norm_num at this

/-! ## Alpha decay -/

theorem partition_zero {G T : Nat} (b t : Nat) (hW : (G * T) % U32 ≠ 0) :
    partition G T b t 0 = .ok ⟨(G * T) % U32, 0, (b * T) % U32, 0, 0, (G * T) % U32⟩ := by
  have hlt : (G * T) % U32 < U32 := Nat.mod_lt _ (by decide)
  unfold partition partitionRaw
  generalize (G * T) % U32 = W at *
  generalize (b * T) % U32 = bo at *
  have hU : U64 = 2 ^ 64 := rfl
  have hU32 : U32 = 2 ^ 32 := rfl
  have e1 : (W + U64 - 1) % U64 = W - 1 := by
    have : W + U64 - 1 = (W - 1) + U64 := by omega
    rw [this, Nat.add_mod_right]
    exact Nat.mod_eq_of_lt (by omega)
  have e2 : (0 + (W - 1)) % U64 = W - 1 := by
    rw [Nat.zero_add]
    exact Nat.mod_eq_of_lt (by omega)
  have e3 : (W - 1) / W = 0 := Nat.div_eq_of_lt (by omega)
  simp only [hW, if_false, e1, e2, e3, Nat.zero_mul, Nat.zero_mod, Nat.add_zero, Nat.mod_mod]
  unfold clamp
  by_cases hs : (bo + t) % U64 > 0
  · simp [Except.map, hs]
  · have : (bo + t) % U64 = 0 := by omega
    simp [Except.map, this]

theorem strideLoop_of_not_lt {σ : Type} (body : Nat → σ → Except Fault σ) (e st fuel i : Nat)
    (s : σ) (h : ¬ i < e) : strideLoop body e st fuel i s = .ok s := by
  cases fuel <;> simp [strideLoop, h]

theorem countLoop_idle (trial : List ℚ × ℚ → Except Fault (List ℚ × ℚ))
    (h : ∀ A alpha, trial (A, alpha) = .ok (A, decay alpha)) (n j : Nat) (A : List ℚ)
    (alpha : ℚ) : countLoop (fun _ s => trial s) n j (A, alpha) = .ok (A, decay^[n] alpha) := by
  induction n generalizing j alpha with
  | zero => rfl
  | succ n ih => rw [countLoop, h, ok_bind, ih, Function.iterate_succ_apply]

theorem kernel_zero (sizeofT ERT_FLOP ntrials : Nat) (A : List ℚ) :
    (kernel sizeofT ERT_FLOP 0 ntrials A).2 = .ok A := by
  unfold kernel kernelState
  simp only []
  rw [countLoop_idle (kernelTrial ERT_FLOP 0) (fun _ _ => rfl)]
  rfl

theorem block_stride_zero (ERT_FLOP fuel G T b t ntrials : Nat) (A : List ℚ)
    (hW : (G * T) % U32 ≠ 0) : block_stride ERT_FLOP fuel G T b t ntrials 0 A = .ok A := by
  unfold block_stride blockStrideState
  rw [partition_zero b t hW, ok_bind, countLoop_idle]
  · rfl
  · intro B alpha
    unfold strideTrial
    simp only []
    rw [strideLoop_of_not_lt _ _ _ _ _ _ (Nat.lt_irrefl 0)]
    rfl

theorem runWorkers_zero (ERT_FLOP fuel G T ntrials : Nat) (sched : List (Nat × Nat))
    (A : List ℚ) (hW : (G * T) % U32 ≠ 0) :
    runWorkers ERT_FLOP fuel G T ntrials 0 sched A = .ok A := by
  unfold runWorkers
  induction sched with
  | nil => rfl
  | cons w rest ih => rw [List.foldlM_cons, block_stride_zero _ _ _ _ _ _ _ A hW, ok_bind, ih]

/-- C10 (amended): for `N = 0` and every launch whose 32-bit worker count
`(G * T) mod 2^32` is not zero, `kernel` and `gpuKernel` write the same report,
and neither touches the buffer: `kernel` returns even the empty buffer without
fault, every worker has `elem_per_thr = 0` and `start_idx = end_idx = 0`, visits
no index and returns the buffer unchanged, for every trial count and iteration
budget. -/
theorem C10_empty_buffer (sizeofT ERT_FLOP fuel G T b t ntrials : Nat)
    (sched : List (Nat × Nat)) (A : List ℚ) (hW : (G * T) % U32 ≠ 0) :
    (kernel sizeofT ERT_FLOP 0 ntrials A).1
      = (gpuKernel sizeofT ERT_FLOP fuel G T sched 0 ntrials A).1 ∧
    (kernel sizeofT ERT_FLOP 0 ntrials []).2 = .ok [] ∧
    (kernel sizeofT ERT_FLOP 0 ntrials A).2 = .ok A ∧
    EmptyPartition G T b t ∧
    workerIndices fuel G T b t 0 = .ok [] ∧
    block_stride ERT_FLOP fuel G T b t ntrials 0 [] = .ok [] ∧
    block_stride ERT_FLOP fuel G T b t ntrials 0 A = .ok A ∧
    (gpuKernel sizeofT ERT_FLOP fuel G T sched 0 ntrials A).2 = .ok A := by
  refine ⟨rfl, kernel_zero _ _ _ [], kernel_zero _ _ _ A, ⟨_, partition_zero b t hW, rfl, rfl, rfl⟩,
    ?_, block_stride_zero _ _ _ _ _ _ _ [] hW, block_stride_zero _ _ _ _ _ _ _ A hW,
    runWorkers_zero _ _ _ _ _ sched A hW⟩
  unfold workerIndices sweepIndices
  rw [partition_zero b t hW, ok_bind, strideLoop_of_not_lt _ _ _ _ _ _ (Nat.lt_irrefl 0)]

/-- Witness for C10: a 2 x 2 launch on the empty buffer. -/
theorem C10_empty_buffer_witness :
    (2 * 2) % U32 ≠ 0 ∧ EmptyPartition 2 2 1 1 ∧
    block_stride 4 0 2 2 1 1 5 0 [] = .ok [] ∧
    (gpuKernel 8 4 0 2 2 (grid 2 2) 0 5 []).2 = .ok [] :=
  have h := C10_empty_buffer 8 4 0 2 2 1 1 5 (grid 2 2) [] (by decide)
  ⟨by decide, h.2.2.2.1, h.2.2.2.2.2.1, h.2.2.2.2.2.2.2⟩

/-- Counterexample to C10 as stated: for `G = 4194304`, `T = 1024` the 32-bit
product `gridDim.x * blockDim.x` is 0 and line 36 divides by zero, so no worker
reaches `start_idx = end_idx = 0`. -/
theorem C10_counterexample :
    (1 ≤ 4194304 ∧ 1 ≤ 1024) ∧
    partition 4194304 1024 0 0 0 = .error .divByZero ∧
    block_stride 1 0 4194304 1024 0 0 1 0 [] = .error .divByZero ∧
    ¬ EmptyPartition 4194304 1024 0 0 := by
  refine ⟨by decide, rfl, rfl, ?_⟩
  rintro ⟨p, hp, -⟩
  have h : partition 4194304 1024 0 0 0 = .error .divByZero := rfl
  rw [h] at hp
  cases hp

/-! ## Element independence -/

theorem trials_indexed (ERT_FLOP : Nat) (S : Nat → Prop) [DecidablePred S]
    (trial : Nat → List ℚ × ℚ → Except Fault (List ℚ × ℚ)) (L : Nat)
    (htrial : ∀ j A alpha, A.length = L →
      trial j (A, alpha) = .ok (applyOn S (updElem ERT_FLOP alpha) A, decay alpha))
    (n j : Nat) (A : List ℚ) (alpha : ℚ) (hA : A.length = L) :
    countLoop trial n j (A, alpha)
      = .ok (applyOn S (elemTrials ERT_FLOP n alpha) A, decay^[n] alpha) := by
  induction n generalizing j A alpha with
  | zero =>
    have : elemTrials ERT_FLOP 0 alpha = fun x => x := rfl
    rw [this, applyOn_id]
    rfl
  | succ n ih =>
    rw [countLoop, htrial j A alpha hA, ok_bind,
      ih (j + 1) _ (decay alpha) (by rw [length_applyOn]; exact hA), applyOn_comp]
    rfl

theorem kernelTrialOrder_eq (ERT_FLOP N : Nat) (order : List Nat)
    (hp : order.Perm (List.range N)) (A : List ℚ) (alpha : ℚ) (hA : N ≤ A.length) :
    kernelTrialOrder ERT_FLOP order (A, alpha)
      = .ok (applyOn (fun j => j < N) (updElem ERT_FLOP alpha) A, decay alpha) := by
  have hmem : ∀ i, i ∈ order ↔ i < N := fun i => by rw [hp.mem_iff, List.mem_range]
  unfold kernelTrialOrder
  simp only []
  rw [sweep_indices ERT_FLOP alpha order A (hp.nodup_iff.mpr (List.nodup_range N))
    (fun i hi => Nat.lt_of_lt_of_le ((hmem i).mp hi) hA), ok_bind]
  have : applyOn (fun j => j ∈ order) (updElem ERT_FLOP alpha) A
      = applyOn (fun j => j < N) (updElem ERT_FLOP alpha) A :=
    applyOn_congr _ _ (fun i _ => hmem i)
  rw [this]
  rfl

theorem kernelStateOrder_eq (ERT_FLOP N ntrials : Nat) (orders : Nat → List Nat)
    (hp : ∀ j, (orders j).Perm (List.range N)) (A : List ℚ) (hA : N ≤ A.length) :
    kernelStateOrder ERT_FLOP orders ntrials A = kernelState ERT_FLOP N ntrials A := by
  rw [kernelState_eq ERT_FLOP N ntrials A hA]
  unfold kernelStateOrder
  exact trials_indexed ERT_FLOP (fun j => j < N)
    (fun j s => kernelTrialOrder ERT_FLOP (orders j) s) A.length
    (fun j B alpha hB => kernelTrialOrder_eq ERT_FLOP N (orders j) (hp j) B alpha (by omega))
    ntrials 0 A (1 / 2) rfl

theorem kernelTrialOrder_range (ERT_FLOP N : Nat) (s : List ℚ × ℚ) :
    kernelTrialOrder ERT_FLOP (List.range N) s = kernelTrial ERT_FLOP N s := by
  unfold kernelTrialOrder kernelTrial
  rw [countLoop_eq_foldlM, List.range_eq_range']

/-- C11: in `kernel`, for every size, trial count and `ERT_FLOP`, the final value
of each element below `N` is `elemTrials ERT_FLOP ntrials (1/2)` applied to its
initial value, a function of the initial value, the trial count and the depth
only: two runs on different buffers, sizes and indices give equal final values
wherever the initial values are equal.  Hence running the element loop of every
trial over any permutation of `0 .. N - 1` returns the same buffer and `alpha`
as `kernel`, whose own order is the list `0, 1, ..., N - 1`. -/
theorem C11_element_independence (sizeofT ERT_FLOP N ntrials : Nat) (A : List ℚ)
    (hA : N ≤ A.length) :
    (∃ B, (kernel sizeofT ERT_FLOP N ntrials A).2 = .ok B ∧ B.length = A.length ∧
      (∀ i, i < N → B[i]? = (A[i]?).map (elemTrials ERT_FLOP ntrials (1 / 2))) ∧
      ∀ (N' : Nat) (A' B' : List ℚ) (i i' : Nat), N' ≤ A'.length →
        (kernel sizeofT ERT_FLOP N' ntrials A').2 = .ok B' →
        i < N → i' < N' → A[i]? = A'[i']? → B[i]? = B'[i']?) ∧
    (∀ orders : Nat → List Nat, (∀ j, (orders j).Perm (List.range N)) →
      (kernelStateOrder ERT_FLOP orders ntrials A).map Prod.fst
        = (kernel sizeofT ERT_FLOP N ntrials A).2) ∧
    kernelStateOrder ERT_FLOP (fun _ => List.range N) ntrials A
      = kernelState ERT_FLOP N ntrials A := by
  refine ⟨⟨_, kernel_eq sizeofT ERT_FLOP N ntrials A hA, length_applyOn _ _ _, ?_, ?_⟩, ?_, ?_⟩
  · intro i hi
    exact getElem?_applyOn_of_lt (fun j => j < N) _ _ hi
  · intro N' A' B' i i' hA' hB' hi hi' heq
    rw [kernel_eq sizeofT ERT_FLOP N' ntrials A' hA'] at hB'
    injection hB' with hB'
    rw [← hB', getElem?_applyOn_of_lt (fun j => j < N) _ _ hi,
      getElem?_applyOn_of_lt (fun j => j < N') _ _ hi', heq]
  · intro orders hp
    rw [kernelStateOrder_eq ERT_FLOP N ntrials orders hp A hA]
    rfl
  · exact kernelStateOrder_eq ERT_FLOP N ntrials _ (fun _ => List.Perm.refl _) A hA

/-- Witness for C11: depth 4, two trials on `[2, 1, 0]`, traversed backwards in
every trial. -/
theorem C11_element_independence_witness :
    (kernelStateOrder 4 (fun _ => [2, 1, 0]) 2 [2, 1, 0]).map Prod.fst
      = (kernel 8 4 3 2 [2, 1, 0]).2 ∧
    ∃ B, (kernel 8 4 3 2 [2, 1, 0]).2 = .ok B ∧ B.length = 3 ∧
      ∀ i, i < 3 → B[i]? = (([2, 1, 0] : List ℚ)[i]?).map (elemTrials 4 2 (1 / 2)) :=
  have h := C11_element_independence 8 4 3 2 [2, 1, 0] (by decide)
  ⟨h.2.1 (fun _ => [2, 1, 0]) (fun _ => (by decide : ([2, 1, 0] : List Nat).Perm (List.range 3))),
    match h.1 with
    | ⟨B, h1, h2, h3, _⟩ => ⟨B, h1, h2, h3⟩⟩

/-! ## Interleaved, balanced assignment -/

theorem sweepCount_le_ceil (N W s : Nat) : sweepCount N W s ≤ (N + W - 1) / W := by
  unfold sweepCount
  exact Nat.div_le_div_right (by omega)

theorem floor_le_sweepCount {N W w : Nat} (hw : w < W) :
    N / W ≤ sweepCount N W (clampStart w N) := by
  unfold sweepCount clampStart
  by_cases h : w > N
  · rw [if_pos h, Nat.div_eq_of_lt (by omega)]
    exact Nat.zero_le _
  · rw [if_neg h]
    exact Nat.div_le_div_right (by omega)

theorem ceil_le_floor_succ (N W : Nat) (hW : 0 < W) : (N + W - 1) / W ≤ N / W + 1 := by
  rw [← Nat.add_div_right N hW]
  exact Nat.div_le_div_right (by omega)

theorem workerIndices_noWrap_eq {fuel N G T b t : Nat} (hG : 1 ≤ G) (hT : 1 ≤ T)
    (hnw : NoWrap N G T) (hfuel : N ≤ fuel) (hb : b < G) (ht : t < T) :
    workerIndices fuel G T b t N
      = .ok (List.range' (clampStart (b * T + t) N)
          (sweepCount N (G * T) (clampStart (b * T + t) N)) (G * T)) := by
  obtain ⟨e1, e2, hpos, hw, hsum⟩ := noWrap_facts hG hT hnw hb ht
  have h := @workerIndices_eq fuel G T b t N (by rw [e1]; exact hpos) (by rw [e1, e2]; exact hsum)
    hfuel
  rw [e1, e2] at h
  exact h

/-- C12 (amended): when nothing wraps (`G * T < 2^32`, `N + 2 * G * T <= 2^64`),
worker `w = b * T + t` of a `G` x `T` launch visits in one sweep exactly the
indices `i < N` with `i mod W = w`, `W = G * T`; the `k`-th visited index is
`w + W * k`, so consecutive ones are `W` apart; each worker visits at most
`ceil(N / W)` indices, and the counts of any two workers differ by at most 1. -/
theorem C12_interleaved_balanced (fuel N G T : Nat) (hG : 1 ≤ G) (hT : 1 ≤ T)
    (hnw : NoWrap N G T) (hfuel : N ≤ fuel) : InterleavedBalanced fuel N G T := by
  intro b t hb ht
  obtain ⟨-, -, hpos, hw, -⟩ := noWrap_facts hG hT hnw hb ht
  refine ⟨_, workerIndices_noWrap_eq hG hT hnw hfuel hb ht, ?_, ?_, ?_, ?_⟩
  · intro i
    rw [mem_sweep_iff_onStride hpos, onStride_clampStart_iff hw]
  · intro k hk
    rw [List.length_range'] at hk
    rw [List.getElem?_range' _ _ hk]
    have hs : clampStart (b * T + t) N = b * T + t := by
      unfold clampStart
      by_cases h : b * T + t > N
      · exfalso
        have h0 : sweepCount N (G * T) (clampStart (b * T + t) N) = 0 :=
          sweepCount_of_le hpos (by unfold clampStart; rw [if_pos h])
        omega
      · rw [if_neg h]
    rw [hs]
  · rw [List.length_range']
    exact sweepCount_le_ceil _ _ _
  · intro b' t' l' hb' ht' hl'
    obtain ⟨-, -, -, hw', -⟩ := noWrap_facts hG hT hnw hb' ht'
    rw [workerIndices_noWrap_eq hG hT hnw hfuel hb' ht'] at hl'
    injection hl' with hl'
    rw [← hl', List.length_range', List.length_range']
    have h1 := sweepCount_le_ceil N (G * T) (clampStart (b * T + t) N)
    have h2 := ceil_le_floor_succ N (G * T) hpos
    have h3 := floor_le_sweepCount (N := N) hw'
    omega

/-- Witness for C12: `N = 10` on a 2 x 2 launch; the workers visit 3, 3, 2 and 2
indices. -/
theorem C12_interleaved_balanced_witness :
    workerIndices 10 2 2 0 1 10 = .ok [1, 5, 9] ∧ workerIndices 10 2 2 1 1 10 = .ok [3, 7] ∧
    InterleavedBalanced 10 10 2 2 :=
  ⟨rfl, rfl,
    C12_interleaved_balanced 10 10 2 2 (by decide) (by decide) ⟨by decide, by decide⟩
      (by decide)⟩

/-- Counterexample to C12 as stated: with `G = 4194305`, `T = 1024`, `N = 1`, worker
`(4194304, 0)` has `w = b * T + t = 2^32`, yet it visits index 0, whose residue
modulo `W = G * T` is 0. -/
theorem C12_counterexample :
    (1 ≤ 4194305 ∧ 1 ≤ 1024 ∧ 4194304 < 4194305 ∧ 0 < 1024 ∧
      4194304 * 1024 + 0 < 4194305 * 1024) ∧
    workerIndices 1 4194305 1024 4194304 0 1 = .ok [0] ∧
    0 % (4194305 * 1024) ≠ 4194304 * 1024 + 0 ∧
    ¬ InterleavedBalanced 1 1 4194305 1024 := by
  refine ⟨by decide, rfl, by decide, ?_⟩
  intro h
  obtain ⟨l, hl, hmem, -⟩ := h 4194304 0 (by decide) (by decide)
  have e : workerIndices 1 4194305 1024 4194304 0 1 = .ok [0] := rfl
  rw [e] at hl
  injection hl with hl
  have h0 : (0 : Nat) ∈ l := by
    rw [← hl]
    exact List.mem_singleton.mpr rfl
  exact absurd ((hmem 0).mp h0).2 (by decide)

/-! ## Flop count -/

theorem flops_blocks (F : Nat) (bs : List (Nat × List Stmt)) :
    (((bs.filter (fun blk => F &&& blk.1 == blk.1)).flatMap Prod.snd).map Stmt.flops).sum
      = (bs.map (fun blk => if F &&& blk.1 = blk.1 then (blk.2.map Stmt.flops).sum else 0)).sum := by
  induction bs with
  | nil => rfl
  | cons blk bs ih =>
    rw [List.filter_cons, List.map_cons, List.sum_cons]
    by_cases h : F &&& blk.1 = blk.1
    · have hb : (F &&& blk.1 == blk.1) = true := by simpa using h
      rw [if_pos hb, if_pos h, List.flatMap_cons, List.map_append, List.sum_append, ih]
    · have hb : ¬ (F &&& blk.1 == blk.1) = true := by simpa using h
      rw [if_neg hb, if_neg h, ih, Nat.zero_add]

theorem mask_term (F k : Nat) :
    (if F &&& 2 ^ k = 2 ^ k then 2 ^ k else 0) = 2 ^ k * (F / 2 ^ k % 2) := by
  have hpos : 0 < 2 ^ k := Nat.pow_pos (by decide)
  rw [Nat.and_two_pow, Nat.toNat_testBit]
  rcases Nat.mod_two_eq_zero_or_one (F / 2 ^ k) with h | h
  · rw [h, Nat.zero_mul, Nat.mul_zero, if_neg (by omega)]
  · rw [h, Nat.one_mul, Nat.mul_one, if_pos rfl]

theorem flops_REP (n : Nat) : ((REP n Stmt.kernel2).map Stmt.flops).sum = 2 * n := by
  unfold REP
  rw [List.map_replicate, List.sum_replicate, smul_eq_mul, Nat.mul_comm]
  rfl

theorem bodyFlops_eq (F : Nat) :
    bodyFlops F
      = 1 * (F / 1 % 2) + 2 * (F / 2 % 2) + 4 * (F / 4 % 2) + 8 * (F / 8 % 2)
        + 16 * (F / 16 % 2) + 32 * (F / 32 % 2) + 64 * (F / 64 % 2) + 128 * (F / 128 % 2)
        + 256 * (F / 256 % 2) + 512 * (F / 512 % 2) + 1024 * (F / 1024 % 2) := by
  have h0 : (if F &&& 1 = 1 then 1 else 0) = 1 * (F / 1 % 2) := mask_term F 0
  have h1 : (if F &&& 2 = 2 then 2 else 0) = 2 * (F / 2 % 2) := mask_term F 1
  have h2 : (if F &&& 4 = 4 then 4 else 0) = 4 * (F / 4 % 2) := mask_term F 2
  have h3 : (if F &&& 8 = 8 then 8 else 0) = 8 * (F / 8 % 2) := mask_term F 3
  have h4 : (if F &&& 16 = 16 then 16 else 0) = 16 * (F / 16 % 2) := mask_term F 4
  have h5 : (if F &&& 32 = 32 then 32 else 0) = 32 * (F / 32 % 2) := mask_term F 5
  have h6 : (if F &&& 64 = 64 then 64 else 0) = 64 * (F / 64 % 2) := mask_term F 6
  have h7 : (if F &&& 128 = 128 then 128 else 0) = 128 * (F / 128 % 2) := mask_term F 7
  have h8 : (if F &&& 256 = 256 then 256 else 0) = 256 * (F / 256 % 2) := mask_term F 8
  have h9 : (if F &&& 512 = 512 then 512 else 0) = 512 * (F / 512 % 2) := mask_term F 9
  have h10 : (if F &&& 1024 = 1024 then 1024 else 0) = 1024 * (F / 1024 % 2) := mask_term F 10
  unfold bodyFlops bodyStmts activeBlocks
  rw [flops_blocks F flopBlocks]
  unfold flopBlocks
  simp only [List.map_cons, List.map_nil, List.sum_cons, List.sum_nil, flops_REP, Stmt.flops,
    Nat.add_zero, Nat.reduceMul]
  rw [h0, h1, h2, h3, h4, h5, h6, h7, h8, h9, h10]
  omega

theorem flops_count (l : List Stmt) :
    (l.filter (fun s => s = Stmt.kernel1)).length
      + 2 * (l.filter (fun s => s = Stmt.kernel2)).length = (l.map Stmt.flops).sum := by
  induction l with
  | nil => rfl
  | cons s l ih =>
    cases s <;> simp [List.filter_cons, Stmt.flops] at ih ⊢ <;> omega

/-- C13: for every `ERT_FLOP` in `[0, 2047]`, power of two or not, the statements
of the loop body that `kernel` and `block_stride` both run once per element per
trial perform exactly `ERT_FLOP` floating-point operations, counting `KERNEL1`
as 1 and each `KERNEL2` as 2 and `REPn(x)` as `n` copies of `x`. -/
theorem C13_flop_count (ERT_FLOP : Nat) (h : ERT_FLOP ≤ 2047) :
    bodyFlops ERT_FLOP = ERT_FLOP ∧
    ((bodyStmts ERT_FLOP).filter (fun s => s = Stmt.kernel1)).length
      + 2 * ((bodyStmts ERT_FLOP).filter (fun s => s = Stmt.kernel2)).length = ERT_FLOP := by
  have h1 : bodyFlops ERT_FLOP = ERT_FLOP := by
    rw [bodyFlops_eq]
    omega
  exact ⟨h1, (flops_count (bodyStmts ERT_FLOP)).trans h1⟩

/-- Witness for C13: `ERT_FLOP = 5` activates the blocks of masks 1 and 4, giving
one `KERNEL1` and two `KERNEL2`, five operations. -/
theorem C13_flop_count_witness :
    bodyStmts 5 = [Stmt.kernel1, Stmt.kernel2, Stmt.kernel2] ∧
    (bodyFlops 5 = 5 ∧
    ((bodyStmts 5).filter (fun s => s = Stmt.kernel1)).length
      + 2 * ((bodyStmts 5).filter (fun s => s = Stmt.kernel2)).length = 5) :=
  ⟨by decide, C13_flop_count 5 (by decide)⟩

/-! ## Partition parameters and worker count -/

theorem partitionRaw_exact {G T b t N : Nat} (hW1 : 1 ≤ G * T) (hW : G * T < U32) (hb : b < G)
    (ht : t < T) (hN : N + G * T - 1 < U64)
    (hend : b * T + t + (N + G * T - 1) / (G * T) * (G * T) < U64) :
    partitionRaw G T b t N = .ok
      ⟨G * T, (N + G * T - 1) / (G * T), b * T, b * T + t,
        b * T + t + (N + G * T - 1) / (G * T) * (G * T), G * T⟩ := by
  have hw := worker_lt hb ht
  have e0 : (G * T) % U32 = G * T := Nat.mod_eq_of_lt hW
  have e0' : (b * T) % U32 = b * T := Nat.mod_eq_of_lt (by omega)
  unfold partitionRaw
  rw [e0, e0']
  generalize G * T = W at *
  generalize b * T = bo at *
  have hU : U64 = 2 ^ 64 := rfl
  have e1 : (W + U64 - 1) % U64 = W - 1 := by
    have : W + U64 - 1 = (W - 1) + U64 := by omega
    rw [this, Nat.add_mod_right]
    exact Nat.mod_eq_of_lt (by omega)
  have e2 : (N + (W - 1)) % U64 = N + W - 1 := by
    rw [Nat.mod_eq_of_lt (by omega)]
    omega
  have e3 : ((N + W - 1) / W * W) % U64 = (N + W - 1) / W * W := Nat.mod_eq_of_lt (by omega)
  have e4 : (bo + t) % U64 = bo + t := Nat.mod_eq_of_lt (by omega)
  have e5 : (bo + t + (N + W - 1) / W * W) % U64 = bo + t + (N + W - 1) / W * W :=
    Nat.mod_eq_of_lt hend
  have hne : ¬ W = 0 := by omega
  simp only [hne, if_false, e1, e2, e3, e4, e5]

/-- C14 (amended): for `1 <= W = G * T < 2^32`, worker `(b, t)` with `b < G`,
`t < T`, `N + W - 1 < 2^64` and `b * T + t + ceil(N / W) * W < 2^64`, line 36
computes `elem_per_thr = ceil(N / W)` (the least `e` with `N <= e * W`), the
unclamped start index is `b * T + t`, the unclamped end index is
`start + ceil(N / W) * W >= N`, and the stride is `W`. -/
theorem C14_partition_parameters (N G T b t : Nat) (hW1 : 1 ≤ G * T) (hW : G * T < U32)
    (hb : b < G) (ht : t < T) (hN : N + G * T - 1 < U64)
    (hend : b * T + t + (N + G * T - 1) / (G * T) * (G * T) < U64) :
    PartitionAsDefined N G T b t ∧
    N ≤ (N + G * T - 1) / (G * T) * (G * T) ∧
    ∀ e, N ≤ e * (G * T) → (N + G * T - 1) / (G * T) ≤ e := by
  obtain ⟨h1, h2⟩ := ceil_mul_bounds N (G * T) hW1
  refine ⟨⟨_, partitionRaw_exact hW1 hW hb ht hN hend, rfl, rfl, rfl, ?_, rfl⟩, h1, ?_⟩
  · show N ≤ b * T + t + (N + G * T - 1) / (G * T) * (G * T)
    omega
  · intro e he
    have : (N + G * T - 1) / (G * T) < e + 1 := by
      rw [Nat.div_lt_iff_lt_mul hW1, Nat.add_mul, Nat.one_mul]
      omega
    omega

/-- Witness for C14: `N = 10` on a 2 x 2 launch, worker `(1, 1)`: `elem_per_thr = 3`,
start 3, end 15, stride 4. -/
theorem C14_partition_parameters_witness :
    partitionRaw 2 2 1 1 10 = .ok ⟨4, 3, 2, 3, 15, 4⟩ ∧
    (PartitionAsDefined 10 2 2 1 1 ∧
    10 ≤ (10 + 2 * 2 - 1) / (2 * 2) * (2 * 2) ∧
    ∀ e, 10 ≤ e * (2 * 2) → (10 + 2 * 2 - 1) / (2 * 2) ≤ e) :=
  ⟨rfl, C14_partition_parameters 10 2 2 1 1 (by decide) (by decide) (by decide) (by decide)
    (by decide) (by decide)⟩

/-- Counterexample to C14 as stated.  For `N = 2^64 - 3`, `G = 1`, `T = 3`, thread 2,
`N + W - 1 = 2^64 - 1` does not wrap but the end index of line 40 does: it is 1,
not `2 + (2^64 - 1)`, and it is below `N`.  For `G = 4194305`, `T = 1024`,
`N = 2048` the 32-bit worker count is 1024, so `elem_per_thr` is 2 and the stride
1024, not `ceil(N / W) = 1` and `W = 4294968320`. -/
theorem C14_counterexample :
    (1 ≤ 1 * 3 ∧ 18446744073709551613 + 1 * 3 - 1 < U64 ∧ 0 < 1 ∧ 2 < 3) ∧
    partitionRaw 1 3 0 2 18446744073709551613 = .ok ⟨3, 6148914691236517205, 0, 2, 1, 3⟩ ∧
    ¬ PartitionAsDefined 18446744073709551613 1 3 0 2 ∧
    (1 ≤ 4194305 * 1024 ∧ 2048 + 4194305 * 1024 - 1 < U64) ∧
    partitionRaw 4194305 1024 0 0 2048 = .ok ⟨1024, 2, 0, 0, 2048, 1024⟩ ∧
    ¬ PartitionAsDefined 2048 4194305 1024 0 0 := by
  refine ⟨by decide, rfl, ?_, by decide, rfl, ?_⟩
  · rintro ⟨p, hp, -, -, -, h, -⟩
    have e : partitionRaw 1 3 0 2 18446744073709551613
        = .ok ⟨3, 6148914691236517205, 0, 2, 1, 3⟩ := rfl
    rw [e] at hp
    injection hp with hp
    rw [← hp] at h
    exact absurd h (by decide)
  · rintro ⟨p, hp, -, -, -, -, h⟩
    have e : partitionRaw 4194305 1024 0 0 2048 = .ok ⟨1024, 2, 0, 0, 2048, 1024⟩ := rfl
    rw [e] at hp
    injection hp with hp
    rw [← hp] at h
    exact absurd h (by decide)

theorem partitionRaw_total (G T b t N : Nat) (hW : (G * T) % U32 ≠ 0) :
    ∃ p, partitionRaw G T b t N = .ok p ∧ p.total_thr = (G * T) % U32 ∧
      p.blockOffset = (b * T) % U32 ∧ p.stride_idx = (G * T) % U32 := by
  unfold partitionRaw
  simp only [hW, if_false]
  exact ⟨_, rfl, rfl, rfl, rfl⟩

theorem partitionRaw_fault_iff (G T b t N : Nat) :
    partitionRaw G T b t N = .error .divByZero ↔ (G * T) % U32 = 0 := by
  constructor
  · intro h
    by_contra hW
    obtain ⟨p, hp, -⟩ := partitionRaw_total G T b t N hW
    rw [hp] at h
    cases h
  · intro hW
    unfold partitionRaw
    simp [hW]

/-- C15 (amended): for every launch with `G >= 1`, `T >= 1` and `G * T < 2^32`,
every block `b < G`, thread `t` and size `N`, `total_thr` equals `G * T` and is
not zero, line 36 does not divide by zero, and `blockOffset` equals `b * T`.  For
any launch, line 36 divides by zero exactly when `G * T` is a multiple of
`2^32`. -/
theorem C15_worker_count (N G T b t : Nat) (hG : 1 ≤ G) (hT : 1 ≤ T) (hW : G * T < U32)
    (hb : b < G) :
    WorkerCountExact N G T b t ∧
    partitionRaw G T b t N ≠ .error .divByZero ∧
    ∀ G' T' : Nat, partitionRaw G' T' b t N = .error .divByZero ↔ (G' * T') % U32 = 0 := by
  have hpos : 0 < G * T := Nat.mul_pos hG hT
  have e0 : (G * T) % U32 = G * T := Nat.mod_eq_of_lt hW
  have hbT : b * T < G * T := Nat.mul_lt_mul_of_pos_right hb hT
  have e1 : (b * T) % U32 = b * T := Nat.mod_eq_of_lt (by omega)
  have hne : (G * T) % U32 ≠ 0 := by omega
  obtain ⟨p, hp, h1, h2, -⟩ := partitionRaw_total G T b t N hne
  refine ⟨⟨p, hp, by rw [h1, e0], by rw [h1, e0]; omega, by rw [h2, e1]⟩, ?_,
    fun G' T' => partitionRaw_fault_iff G' T' b t N⟩
  rw [hp]
  intro h
  cases h

/-- Witness for C15: block 1, thread 1 of a 2 x 2 launch over 10 elements. -/
theorem C15_worker_count_witness :
    WorkerCountExact 10 2 2 1 1 ∧ partitionRaw 2 2 1 1 10 ≠ .error .divByZero :=
  have h := C15_worker_count 10 2 2 1 1 (by decide) (by decide) (by decide) (by decide)
  ⟨h.1, h.2.1⟩

/-- Counterexample to C15 as stated.  `G = 4194304`, `T = 1024` are 32-bit values
(and within the CUDA limits on `gridDim.x` and `blockDim.x`), their 32-bit
product is 0 and line 36 divides by zero.  For `G = 4194305`, `T = 1024` the
product wraps to 1024 and the offset of block 4194304 wraps to 0. -/
theorem C15_counterexample :
    (1 ≤ 4194304 ∧ 4194304 < U32 ∧ 1 ≤ 1024 ∧ 1024 < U32) ∧
    partitionRaw 4194304 1024 0 0 1 = .error .divByZero ∧
    ¬ WorkerCountExact 1 4194304 1024 0 0 ∧
    (1 ≤ 4194305 ∧ 4194305 < U32 ∧ 4194304 < 4194305) ∧
    partitionRaw 4194305 1024 4194304 0 1 = .ok ⟨1024, 1, 0, 0, 1024, 1024⟩ ∧
    ¬ WorkerCountExact 1 4194305 1024 4194304 0 := by
  refine ⟨by decide, rfl, ?_, by decide, rfl, ?_⟩
  · rintro ⟨p, hp, -⟩
    have e : partitionRaw 4194304 1024 0 0 1 = .error .divByZero := rfl
    rw [e] at hp
    cases hp
  · rintro ⟨p, hp, h, -⟩
    have e : partitionRaw 4194305 1024 4194304 0 1 = .ok ⟨1024, 1, 0, 0, 1024, 1024⟩ := rfl
    rw [e] at hp
    injection hp with hp
    rw [← hp] at h
    exact absurd h (by decide)

/-! ## Frame -/

theorem frameBeyond_refl (N : Nat) (A : List ℚ) : FrameBeyond N A A := ⟨rfl, fun _ _ => rfl⟩

theorem frameBeyond_applyOn (N : Nat) (A : List ℚ) (S : Nat → Prop) [DecidablePred S]
    (f : ℚ → ℚ) (hS : ∀ i, S i → i < N) : FrameBeyond N A (applyOn S f A) :=
  ⟨length_applyOn S f A, fun i hi =>
    getElem?_applyOn_of_not S f A (fun h => absurd (hS i h) (by omega))⟩

theorem FrameBeyond.trans {N : Nat} {A B C : List ℚ} (h1 : FrameBeyond N A B)
    (h2 : FrameBeyond N B C) : FrameBeyond N A C :=
  ⟨h2.1.trans h1.1, fun i hi => (h2.2 i hi).trans (h1.2 i hi)⟩

theorem loopBody_frame (ERT_FLOP : Nat) (alpha : ℚ) (i N : Nat) (A B : List ℚ) (hi : i < N)
    (hA : N ≤ A.length) (hB : FrameBeyond N A B) :
    Safe (FrameBeyond N A) (loopBody ERT_FLOP alpha i B) := by
  rw [loopBody_eq_pointUpdate, pointUpdate_of_lt _ (by rw [hB.1]; omega)]
  exact hB.trans (frameBeyond_applyOn N B _ _ (fun j hj => by rw [hj]; exact hi))

theorem blockStrideState_frame (ERT_FLOP fuel G T b t ntrials N : Nat) (A B : List ℚ)
    (hA : N ≤ A.length) (hB : FrameBeyond N A B) :
    Safe (fun s : List ℚ × ℚ => FrameBeyond N A s.1)
      (blockStrideState ERT_FLOP fuel G T b t ntrials N B) := by
  unfold blockStrideState
  refine Safe.bind (partition_safe G T b t N) ?_
  intro p hp
  refine countLoop_safe _ _ ?_ ntrials 0 (B, 1 / 2) hB
  intro _ s hs
  unfold strideTrial
  refine Safe.bind (Q := fun s : List ℚ × ℚ => FrameBeyond N A s.1)
    (strideLoop_safe (FrameBeyond N A) _ _ _ ?_ fuel _ s.1 hs) ?_
  · intro i C hi hC
    exact loopBody_frame ERT_FLOP s.2 i N A C (by omega) hA hC
  · intro C hC
    exact hC

theorem block_stride_frame {ERT_FLOP fuel G T b t ntrials N : Nat} {A B C : List ℚ}
    (hA : N ≤ A.length) (hB : FrameBeyond N A B)
    (h : block_stride ERT_FLOP fuel G T b t ntrials N B = .ok C) : FrameBeyond N A C := by
  have hs := blockStrideState_frame ERT_FLOP fuel G T b t ntrials N A B hA hB
  unfold block_stride at h
  cases hr : blockStrideState ERT_FLOP fuel G T b t ntrials N B with
  | error e =>
    rw [hr] at h
    cases h
  | ok s =>
    rw [hr] at h hs
    injection h with h
    rw [← h]
    exact hs

theorem runWorkers_frame {ERT_FLOP fuel G T ntrials N : Nat} (sched : List (Nat × Nat))
    {A B C : List ℚ} (hA : N ≤ A.length) (hB : FrameBeyond N A B)
    (h : runWorkers ERT_FLOP fuel G T ntrials N sched B = .ok C) : FrameBeyond N A C := by
  unfold runWorkers at h
  induction sched generalizing B with
  | nil =>
    injection h with h
    rw [← h]
    exact hB
  | cons w rest ih =>
    rw [List.foldlM_cons] at h
    cases hw : block_stride ERT_FLOP fuel G T w.1 w.2 ntrials N B with
    | error e =>
      rw [hw] at h
      cases h
    | ok B1 =>
      rw [hw, ok_bind] at h
      exact ih (block_stride_frame hA hB hw) h

theorem block_stride_no_trials {ERT_FLOP fuel G T b t N : Nat} {A B : List ℚ}
    (h : block_stride ERT_FLOP fuel G T b t 0 N A = .ok B) : B = A := by
  unfold block_stride blockStrideState at h
  cases hp : partition G T b t N with
  | error e =>
    rw [hp] at h
    cases h
  | ok p =>
    rw [hp, ok_bind] at h
    injection h with h
    exact h.symm

theorem block_stride_no_trials_ok (ERT_FLOP fuel G T b t N : Nat) (A : List ℚ)
    (hW : (G * T) % U32 ≠ 0) : block_stride ERT_FLOP fuel G T b t 0 N A = .ok A := by
  obtain ⟨p, hp, -⟩ := partitionRaw_total G T b t N hW
  unfold block_stride blockStrideState partition
  rw [hp]
  rfl

theorem runWorkers_grid_ok {ERT_FLOP fuel N ntrials G T : Nat} {A : List ℚ} (hG : 1 ≤ G)
    (hT : 1 ≤ T) (hnw : NoWrap N G T) (hfuel : N ≤ fuel) (hA : N ≤ A.length)
    {sched : List (Nat × Nat)} (hp : sched.Perm (grid G T)) :
    ∃ B, runWorkers ERT_FLOP fuel G T ntrials N sched A = .ok B :=
  ⟨_, runWorkers_noWrap hG hT hnw hfuel sched (hp.nodup_iff.mpr (nodup_grid G T))
    (fun _ hw => mem_grid.mp (hp.mem_iff.mp hw)) A hA⟩

theorem runWorkers_ok {ERT_FLOP fuel G T ntrials N : Nat} (hW : (G * T) % U32 ≠ 0)
    (hN : N + 3 * U32 ≤ U64) (hfuel : N ≤ fuel) (sched : List (Nat × Nat))
    (ht : ∀ w ∈ sched, w.2 < U32) (A : List ℚ) (hA : N ≤ A.length) :
    ∃ B, runWorkers ERT_FLOP fuel G T ntrials N sched A = .ok B := by
  have hlt : (G * T) % U32 < U32 := Nat.mod_lt _ (by decide)
  unfold runWorkers
  induction sched generalizing A with
  | nil => exact ⟨A, rfl⟩
  | cons w rest ih =>
    have hbo : (w.1 * T) % U32 < U32 := Nat.mod_lt _ (by decide)
    have hw := ht w (List.mem_cons_self _ _)
    rw [List.foldlM_cons, block_stride_eq (Nat.pos_of_ne_zero hW) (by omega) hfuel hA, ok_bind]
    exact ih (fun v hv => ht v (List.mem_cons_of_mem _ hv)) _
      (by rw [length_applyOn]; exact hA)

/-- C16: for a buffer of length at least `N` (in particular one longer than `N`),
the buffer fill and `kernel` return a buffer of the same length that agrees with
the original at every index `i >= N`; so does every buffer returned by
`block_stride` for one worker and by the launch of all workers in any order, for
every launch, and the launch does return when nothing wraps, and also for any
worker list with 32-bit thread indices when the 32-bit worker count is not zero
and `N <= 2^64 - 3 * 2^32`.  With
`ntrials = 0`, `kernel` writes the report and returns the buffer unchanged, and
`block_stride` returns it unchanged whenever it returns, which it does unless
the 32-bit worker count is zero. -/
theorem C16_frame (sizeofT ERT_FLOP fuel G T b t ntrials N : Nat) (sched : List (Nat × Nat))
    (A : List ℚ) (v : ℚ) (hA : N ≤ A.length) :
    (∃ B, initialize_buffer N A v = .ok B ∧ FrameBeyond N A B) ∧
    (∃ B, (kernel sizeofT ERT_FLOP N ntrials A).2 = .ok B ∧ FrameBeyond N A B) ∧
    (∀ B, block_stride ERT_FLOP fuel G T b t ntrials N A = .ok B → FrameBeyond N A B) ∧
    (∀ B, (gpuKernel sizeofT ERT_FLOP fuel G T sched N ntrials A).2 = .ok B →
      FrameBeyond N A B) ∧
    (1 ≤ G → 1 ≤ T → NoWrap N G T → N ≤ fuel → sched.Perm (grid G T) →
      ∃ B, (gpuKernel sizeofT ERT_FLOP fuel G T sched N ntrials A).2 = .ok B ∧
        FrameBeyond N A B) ∧
    ((G * T) % U32 ≠ 0 → N + 3 * U32 ≤ U64 → N ≤ fuel → (∀ w ∈ sched, w.2 < U32) →
      ∃ B, (gpuKernel sizeofT ERT_FLOP fuel G T sched N ntrials A).2 = .ok B ∧
        FrameBeyond N A B) ∧
    kernel sizeofT ERT_FLOP N 0 A = (⟨sizeofT, 2⟩, .ok A) ∧
    (∀ B, block_stride ERT_FLOP fuel G T b t 0 N A = .ok B → B = A) ∧
    ((G * T) % U32 ≠ 0 → block_stride ERT_FLOP fuel G T b t 0 N A = .ok A) := by
  have hrun : ∀ B, (gpuKernel sizeofT ERT_FLOP fuel G T sched N ntrials A).2 = .ok B →
      FrameBeyond N A B := fun B hB => runWorkers_frame sched hA (frameBeyond_refl N A) hB
  refine ⟨⟨_, initialize_buffer_eq N A v hA, frameBeyond_applyOn N A _ _ (fun _ h => h)⟩,
    ⟨_, kernel_eq sizeofT ERT_FLOP N ntrials A hA, frameBeyond_applyOn N A _ _ (fun _ h => h)⟩,
    fun B hB => block_stride_frame hA (frameBeyond_refl N A) hB, hrun, ?_, ?_, rfl,
    fun B hB => block_stride_no_trials hB,
    fun hW => block_stride_no_trials_ok ERT_FLOP fuel G T b t N A hW⟩
  · intro hG hT hnw hfuel hp
    obtain ⟨B, hB⟩ := @runWorkers_grid_ok ERT_FLOP fuel N ntrials G T A hG hT hnw hfuel hA
      sched hp
    exact ⟨B, hB, hrun B hB⟩
  · intro hW hN hfuel ht
    obtain ⟨B, hB⟩ := @runWorkers_ok ERT_FLOP fuel G T ntrials N hW hN hfuel sched ht A hA
    exact ⟨B, hB, hrun B hB⟩

/-- Witness for C16: `N = 2` on the three-element buffer `[2, 1, 7]`, depth 4, two
trials, a 2 x 1 launch: the last element stays 7. -/
theorem C16_frame_witness :
    initialize_buffer 2 [2, 1, 7] 0 = .ok [0, 0, 7] ∧
    (∃ B, (kernel 8 4 2 2 [2, 1, 7]).2 = .ok B ∧ FrameBeyond 2 [2, 1, 7] B) ∧
    (∃ B, (gpuKernel 8 4 2 2 1 (grid 2 1) 2 2 [2, 1, 7]).2 = .ok B ∧
      FrameBeyond 2 [2, 1, 7] B) ∧
    kernel 8 4 2 0 [2, 1, 7] = (⟨8, 2⟩, .ok [2, 1, 7]) ∧
    block_stride 4 2 2 1 1 0 0 2 [2, 1, 7] = .ok [2, 1, 7] :=
  have h := C16_frame 8 4 2 2 1 1 0 2 2 (grid 2 1) [2, 1, 7] 0 (by decide)
  ⟨rfl, h.2.1, h.2.2.2.2.1 (by decide) (by decide) ⟨by decide, by decide⟩ (by decide)
    (List.Perm.refl _), h.2.2.2.2.2.2.1, h.2.2.2.2.2.2.2.2 (by decide)⟩

/-! ## Depth-1 closed form -/

theorem elemTrials_one (n : Nat) (alpha x : ℚ) :
    elemTrials 1 n alpha x = x + ∑ j ∈ Finset.range n, alpha * (1 - 1 / 100000000) ^ j := by
  induction n generalizing alpha x with
  | zero => simp [elemTrials]
  | succ n ih =>
    rw [elemTrials, ih, updElem_one, Finset.sum_range_succ']
    unfold decay
    have : ∀ j : ℕ, alpha * (1 - 1 / 100000000) * (1 - 1 / 100000000 : ℚ) ^ j
        = alpha * (1 - 1 / 100000000) ^ (j + 1) := fun j => by ring
    simp only [this]
    ring

/-- C17: with `ERT_FLOP = 1`, for every `N`, every trial count `n` and every
buffer of length at least `N`, `kernel` returns a buffer of the same length in
which each element below `N` is its initial value plus the sum over
`j = 0 .. n - 1` of `1/2 * (1 - 1e-8)^j`. -/
theorem C17_depth_one_closed_form (sizeofT N n : Nat) (A : List ℚ) (hA : N ≤ A.length) :
    ∃ B, (kernel sizeofT 1 N n A).2 = .ok B ∧ B.length = A.length ∧
      ∀ i, i < N → B[i]? = (A[i]?).map
        (fun x => x + ∑ j ∈ Finset.range n, 1 / 2 * (1 - 1 / 100000000) ^ j) := by
  refine ⟨_, kernel_eq sizeofT 1 N n A hA, length_applyOn _ _ _, ?_⟩
  intro i hi
  have hf : elemTrials 1 n (1 / 2)
      = fun x => x + ∑ j ∈ Finset.range n, 1 / 2 * (1 - 1 / 100000000) ^ j := by
    funext x
    exact elemTrials_one n (1 / 2) x
  rw [getElem?_applyOn_of_lt (fun j => j < N) _ _ hi, hf]

/-- Witness for C17: two trials of depth 1 turn `[3]` into
`[3 + 1/2 + 1/2 * (1 - 1e-8)]`. -/
theorem C17_depth_one_closed_form_witness :
    (kernel 8 1 1 2 [3]).2 = .ok [3 + 1 / 2 + 1 / 2 * (1 - 1 / 100000000)] ∧
    ∃ B, (kernel 8 1 1 2 [3]).2 = .ok B ∧ B.length = [(3 : ℚ)].length ∧
      ∀ i, i < 1 → B[i]? = (([3] : List ℚ)[i]?).map
        (fun x => x + ∑ j ∈ Finset.range 2, 1 / 2 * (1 - 1 / 100000000) ^ j) :=
  ⟨by simp [kernel, kernelState, countLoop, kernelTrial, loopBody, bodyStmts_one, Stmt.exec,
      load, store, KERNEL1, Except.map, ok_bind, decay],
    C17_depth_one_closed_form 8 1 2 [3] (by decide)⟩

end ERT
